import Mathlib

set_option maxRecDepth 20000

/- Verification development for the license-ledger-patterns analysis engine
   (src/analyzer.py and src/cross_dataset_analyzer.py).

   Modelling conventions:
   - Python strings are lists of Unicode code points (List Nat).
   - pandas cells that may be missing (NaN / NaT) are Option values.
   - Float amounts and scores are exact integer fractions (numerator, denominator),
     written as Int x Nat or Nat x Nat pairs with positive denominators; the float
     arithmetic of the source is exact on these ranges, so comparisons agree.
   - A pandas DataFrame is a list of row records plus column-presence flags. -/

/-! ## Character classes and elementary string operations -/

/-- Python regex whitespace class (ASCII part): space, tab, newline, carriage
    return, vertical tab, form feed. -/
def isSpace (c : Nat) : Bool :=
  c == 32 || c == 9 || c == 10 || c == 13 || c == 11 || c == 12

/-- Python regex word-character class (ASCII part): letters, digits, underscore. -/
def isWordChar (c : Nat) : Bool :=
  (65 ≤ c && c ≤ 90) || (97 ≤ c && c ≤ 122) || (48 ≤ c && c ≤ 57) || c == 95

def isDigit (c : Nat) : Bool := 48 ≤ c && c ≤ 57

/-- ASCII upper-casing of one code point (str.upper; the datasets are ASCII). -/
def toUpperN (c : Nat) : Nat := if 97 ≤ c ∧ c ≤ 122 then c - 32 else c

/-- String literal to code-point list. -/
def s2l (s : String) : List Nat := s.toList.map Char.toNat

/-- Python str.upper. -/
def pyUpper (l : List Nat) : List Nat := l.map toUpperN

/-- Drop leading whitespace (str.lstrip). -/
def trimLead (l : List Nat) : List Nat := l.dropWhile isSpace

/-- Drop trailing whitespace (str.rstrip). -/
def trimTrail : List Nat → List Nat
  | [] => []
  | c :: rest =>
    match trimTrail rest with
    | [] => if isSpace c then [] else [c]
    | r => c :: r

/-- Python str.strip. -/
def pyStrip (l : List Nat) : List Nat := trimTrail (trimLead l)

/-- One left-to-right scan implementing re.sub of one-or-more whitespace by a single
    space: every maximal whitespace run becomes one space (code 32). The Boolean flag
    records whether the previous character was whitespace. -/
def collapseAux : Bool → List Nat → List Nat
  | _, [] => []
  | prevWs, c :: rest =>
    if isSpace c then
      (if prevWs then collapseAux true rest else 32 :: collapseAux true rest)
    else c :: collapseAux false rest

def collapseWs (l : List Nat) : List Nat := collapseAux false l

/-! ## Maximal word-character runs and whole-word replacement -/

/-- Prepend one character to a run decomposition, merging it into the first run
    when both sides agree on isWordChar. -/
def chunkAux (c : Nat) : List (List Nat) → List (List Nat)
  | [] => [[c]]
  | [] :: more => [c] :: more
  | (d :: run) :: more =>
    if isWordChar c == isWordChar d then (c :: d :: run) :: more
    else [c] :: (d :: run) :: more

/-- Decompose a string into its maximal runs of characters agreeing on isWordChar. -/
def chunkRuns : List Nat → List (List Nat)
  | [] => []
  | c :: rest => chunkAux c (chunkRuns rest)

/-- Whole-word regex replacement re.sub of a word-boundary-anchored pattern p by r,
    for p consisting only of word characters: the word boundary holds exactly at the
    two ends of a maximal word-character run, so the occurrences of the anchored
    pattern are exactly the maximal runs equal to p, each of which re.sub replaces
    by r. -/
def replaceWordRun (p r l : List Nat) : List Nat :=
  ((chunkRuns l).map (fun run => if run = p then r else run)).flatten

/-- The fixed ordered replacement table of cross_dataset_analyzer normalize_addr. -/
def addrPairs : List (List Nat × List Nat) :=
  [(s2l ("STREET"), s2l ("ST")), (s2l ("AVENUE"), s2l ("AVE")), (s2l ("ROAD"), s2l ("RD")),
   (s2l ("BOULEVARD"), s2l ("BLVD")), (s2l ("DRIVE"), s2l ("DR")), (s2l ("LANE"), s2l ("LN")),
   (s2l ("COURT"), s2l ("CT")), (s2l ("PLACE"), s2l ("PL")), (s2l ("CIRCLE"), s2l ("CIR")),
   (s2l ("HIGHWAY"), s2l ("HWY")), (s2l ("PARKWAY"), s2l ("PKWY")),
   (s2l ("TURNPIKE"), s2l ("TPKE"))]

/-- cross_dataset_analyzer normalize_addr on a present string: upper, strip,
    collapse whitespace, then the fixed whole-word abbreviation replacements in
    table order. -/
def normalizeAddrStr (raw : List Nat) : List Nat :=
  addrPairs.foldl (fun a pr => replaceWordRun pr.1 pr.2 a) (collapseWs (pyStrip (pyUpper raw)))

/-- cross_dataset_analyzer normalize_addr on a cell: missing input yields the empty
    string. -/
def cdNormalizeAddr : Option (List Nat) → List Nat
  | none => []
  | some s => normalizeAddrStr s

/-- analyzer.py address column normalization: upper, strip, collapse whitespace;
    pandas .str operations map a missing value to missing. -/
def anAddrNorm (v : Option (List Nat)) : Option (List Nat) :=
  v.map (fun s => collapseWs (pyStrip (pyUpper s)))

/-- analyzer.py business-name column normalization: upper, strip. -/
def anNameNorm (v : Option (List Nat)) : Option (List Nat) :=
  v.map (fun s => pyStrip (pyUpper s))

/-! ## Legal-entity suffix stripping (cross_dataset_analyzer normalize_name) -/

def lastIsSpace (l : List Nat) : Bool :=
  match l.getLast? with
  | some c => isSpace c
  | none => false

/-- One application of re.sub of an end-anchored pattern "one-or-more whitespace
    then SUF" by the empty string: if name ends with SUF immediately preceded by at
    least one whitespace character, the suffix and the whole maximal whitespace run
    before it (the leftmost-longest regex match) are removed; otherwise name is
    returned unchanged. -/
def subSuffix (suf name : List Nat) : List Nat :=
  let core := name.take (name.length - suf.length)
  if name.drop (name.length - suf.length) = suf ∧ lastIsSpace core then trimTrail core
  else name

/-- The fixed ordered suffix list of normalize_name. -/
def suffixPats : List (List Nat) :=
  [s2l ("LLC"), s2l ("INC"), s2l ("CORP"), s2l ("CO"), s2l ("LTD"), s2l ("LP"),
   s2l ("LLP"), s2l ("PC"), s2l ("PLC"), s2l ("CORPORATION"), s2l ("COMPANY"),
   s2l ("LIMITED"), s2l ("INCORPORATED")]

/-- The suffix loop of normalize_name: each pattern applied once, in list order,
    to the evolving string. -/
def stripSuffixes (name : List Nat) : List Nat :=
  suffixPats.foldl (fun n suf => subSuffix suf n) name

/-- cross_dataset_analyzer normalize_name on a present string: upper, strip, the
    suffix loop, collapse whitespace, strip. -/
def normalizeNameStr (raw : List Nat) : List Nat :=
  pyStrip (collapseWs (stripSuffixes (pyStrip (pyUpper raw))))

/-- cross_dataset_analyzer normalize_name on a cell: missing input yields the empty
    string. -/
def cdNormalizeName : Option (List Nat) → List Nat
  | none => []
  | some s => normalizeNameStr s

/-! ## Similarity ratio (python-Levenshtein ratio) -/

/-- Longest-common-subsequence length, with an explicit structural fuel argument
    (the fuel a.length + b.length supplied below always suffices, since every
    recursive call shortens the pair). -/
def lcsAux : Nat → List Nat → List Nat → Nat
  | 0, _, _ => 0
  | _ + 1, [], _ => 0
  | _ + 1, _ :: _, [] => 0
  | fuel + 1, a :: as, b :: bs =>
    if a = b then lcsAux fuel as bs + 1
    else max (lcsAux fuel (a :: as) bs) (lcsAux fuel as (b :: bs))

def lcs (a b : List Nat) : Nat := lcsAux (a.length + b.length) a b

/-- Levenshtein.ratio(a, b) ≥ tn / td. The library ratio is
    (|a|+|b| − dist) / (|a|+|b|) where dist is the edit distance with substitution
    weight 2, and that distance equals |a|+|b| − 2·LCS(a,b), so
    ratio = 2·LCS(a,b) / (|a|+|b|); the comparison is taken across-multiplied.
    (For |a|+|b| = 0 the library defines ratio = 1.0 and both sides hold for any
    threshold ≤ 1; every caller below compares against thresholds ≤ 1.) -/
def simGe (tn td : Nat) (a b : List Nat) : Bool :=
  tn * (a.length + b.length) ≤ td * (2 * lcs a b)

/-! ## Generic table helpers -/

/-- pandas Series.unique: first occurrences, in input order. -/
def pdUniqueAux [DecidableEq α] (seen : List α) : List α → List α
  | [] => []
  | a :: l => if a ∈ seen then pdUniqueAux seen l else a :: pdUniqueAux (a :: seen) l

def pdUnique [DecidableEq α] (l : List α) : List α := pdUniqueAux [] l

/-- Exact fraction value comparison a ≤ b for positive denominators
    (cross multiplication). -/
def fracLe (a b : Int × Nat) : Bool := a.1 * (b.2 : Int) ≤ b.1 * (a.2 : Int)

def fracAdd (a b : Int × Nat) : Int × Nat := (a.1 * b.2 + b.1 * a.2, a.2 * b.2)

def fracMul (a b : Int × Nat) : Int × Nat := (a.1 * b.1, a.2 * b.2)

/-- Stable sort, descending by a fraction-valued key: models Python
    list.sort(key=..., reverse=True). pandas sort_values uses an unstable quicksort,
    so tie order there is unspecified; no theorem below depends on tie order. -/
def sortDescFrac (key : α → Int × Nat) (l : List α) : List α :=
  List.insertionSort (fun x y => fracLe (key y) (key x) = true) l

def sortDescNat (key : α → Nat) (l : List α) : List α :=
  List.insertionSort (fun x y => key y ≤ key x) l

def sortDescInt (key : α → Int) (l : List α) : List α :=
  List.insertionSort (fun x y => key y ≤ key x) l

def sortAscInt (key : α → Int) (l : List α) : List α :=
  List.insertionSort (fun x y => key x ≤ key y) l

/-! ## Currency parsing (CrossDatasetAnalyzer._parse_currency) -/

def digitsToNat (l : List Nat) : Nat := l.foldl (fun a c => a * 10 + (c - 48)) 0

/-- Python float(s) restricted to strings of digits, dots and minus signs (the only
    characters the currency cleaner can leave): an optional leading minus, at most
    one dot, at least one digit and nothing else; the result is the exact value as
    a numerator over a power-of-ten denominator, none meaning ValueError. -/
def pyFloatOfClean (s : List Nat) : Option (Int × Nat) :=
  let p := match s with
    | 45 :: r => (true, r)
    | _ => (false, s)
  if p.2.any (fun c => c == 45) then none
  else
    let intP := p.2.takeWhile (fun c => c != 46)
    match p.2.dropWhile (fun c => c != 46) with
    | [] =>
      if intP ≠ [] ∧ intP.all isDigit then
        some ((if p.1 then -(digitsToNat intP : Int) else (digitsToNat intP : Int)), 1)
      else none
    | _ :: frac =>
      if frac.any (fun c => c == 46) then none
      else if intP = [] ∧ frac = [] then none
      else if intP.all isDigit ∧ frac.all isDigit then
        let num := digitsToNat intP * 10 ^ frac.length + digitsToNat frac
        some ((if p.1 then -(num : Int) else (num : Int)), 10 ^ frac.length)
      else none

/-- A raw pandas cell as seen by _parse_currency: missing, numeric, or text. -/
inductive PyCell where
  | blank : PyCell
  | num : Int × Nat → PyCell
  | txt : List Nat → PyCell
  deriving DecidableEq

/-- _parse_currency: missing yields 0.0; numeric values are cast; text is cleaned by
    deleting every character that is not a digit, a dot or a minus sign, then parsed
    with float(), yielding 0.0 on ValueError. Always returns a finite value. -/
def parseCurrency : PyCell → Int × Nat
  | .blank => (0, 1)
  | .num v => v
  | .txt s =>
    match pyFloatOfClean (s.filter (fun c => isDigit c || c == 46 || c == 45)) with
    | some v => v
    | none => (0, 1)

/-! ## LicenseAnalyzer (src/analyzer.py) -/

/-- One row of the license DataFrame. issue_date cells are modelled after
    pd.to_datetime(..., errors='coerce'): a day number, or none for NaT. -/
structure LRow where
  license_id : Option (List Nat) := none
  business_name : Option (List Nat) := none
  dba_name : Option (List Nat) := none
  address : Option (List Nat) := none
  license_type : Option (List Nat) := none
  zip_code : Option (List Nat) := none
  issue_date : Option Int := none
  deriving DecidableEq

/-- The license DataFrame: rows plus column-presence flags (a pandas frame may lack
    optional columns entirely; a flag set false means the column is absent and its
    per-row values are ignored). -/
structure LTable where
  rows : List LRow := []
  hasLicenseId : Bool := false
  hasBusinessName : Bool := false
  hasDbaName : Bool := false
  hasAddress : Bool := false
  hasLicenseType : Bool := false
  hasZipCode : Bool := false
  hasIssueDate : Bool := false
  hasAddressNormalized : Bool := false
  hasBusinessNameNormalized : Bool := false
  deriving DecidableEq

/-- LicenseAnalyzer._normalize_data: adds address_normalized and
    business_name_normalized when their source columns exist (the derived cell
    values are pure functions of the raw cells, recomputed on demand by anAddrNorm
    and anNameNorm below); issue_date coercion is the identity in this model since
    date cells are already modelled post-coercion. -/
def normalizeData (t : LTable) : LTable :=
  { t with hasAddressNormalized := t.hasAddress,
           hasBusinessNameNormalized := t.hasBusinessName }

/-- LicenseAnalyzer.__init__: stores a copy of the input and normalizes it. -/
def laInit (data : LTable) : LTable := normalizeData data

/-- One finding of analyze_address_density. risk_score is the exact fraction
    license_count over the maximum flagged license_count. The templated
    why_it_matters rationale string is display-only and omitted. -/
structure AddrDensityFinding where
  address : List Nat
  license_count : Nat
  businesses : List (Option (List Nat))
  dba_names : List (List Nat)
  license_types : List (Option (List Nat))
  issue_dates : List Int
  pattern_type : List Nat := s2l ("ADDRESS_CLUSTERING")
  risk_score : Nat × Nat := (0, 1)
  deriving DecidableEq

/-- The groupby-agg dictionary of analyze_address_density names every one of these
    columns unconditionally, so pandas raises KeyError naming the absent ones; the
    in-lambda column-presence guards cannot prevent this because they only run
    inside the per-group aggregation lambdas, after key resolution. -/
def densityMissingCols (t : LTable) : List String :=
  (if t.hasLicenseId then [] else ["license_id"]) ++
  (if t.hasBusinessName then [] else ["business_name"]) ++
  (if t.hasDbaName then [] else ["dba_name"]) ++
  (if t.hasLicenseType then [] else ["license_type"]) ++
  (if t.hasIssueDate then [] else ["issue_date"])

/-- groupby('address_normalized'): rows with a missing key are dropped; groups are
    listed in first-occurrence order (pandas sorts group keys, but no theorem below
    depends on group order). -/
def addrGroups (t : LTable) : List (List Nat × List LRow) :=
  (pdUnique (t.rows.filterMap (fun r => anAddrNorm r.address))).map
    (fun k => (k, t.rows.filter (fun r => anAddrNorm r.address == some k)))

/-- Per-group aggregation of analyze_address_density: count counts non-null
    license_id cells; unique keeps first occurrences (including missing values for
    plain unique); dba_names and issue_dates drop missing values first. -/
def mkDensityFinding (k : List Nat) (g : List LRow) : AddrDensityFinding :=
  { address := k
    license_count := (g.filter (fun r => r.license_id.isSome)).length
    businesses := pdUnique (g.map (fun r => r.business_name))
    dba_names := pdUnique (g.filterMap (fun r => r.dba_name))
    license_types := pdUnique (g.map (fun r => r.license_type))
    issue_dates := g.filterMap (fun r => r.issue_date) }

/-- LicenseAnalyzer.analyze_address_density: empty result when the normalized
    address column is absent; KeyError (modelled as Except.error) when any
    agg-dictionary column is absent; otherwise group, filter by threshold, sort by
    count descending and score each finding by count over the maximum flagged
    count. -/
def analyzeAddressDensity (t : LTable) (threshold : Nat) :
    Except (List String) (List AddrDensityFinding) :=
  if !t.hasAddressNormalized then .ok []
  else if densityMissingCols t ≠ [] then .error (densityMissingCols t)
  else
    let flagged := ((addrGroups t).map (fun g => mkDensityFinding g.1 g.2)).filter
      (fun f => threshold ≤ f.license_count)
    let m := (flagged.map (fun f => f.license_count)).foldr max 0
    .ok ((sortDescNat (fun f => f.license_count) flagged).map
      (fun f => { f with risk_score := (f.license_count, m) }))

/-- One finding of analyze_temporal_clustering. cluster_key is dropped from the
    returned frame by the source; it is retained here as the dedup key. The
    why_it_matters rationale string is display-only and omitted. -/
structure TemporalFinding where
  window_start : Int
  window_end : Int
  license_count : Nat
  businesses : List (Option (List Nat))
  addresses : List (Option (List Nat))
  pattern_type : List Nat := s2l ("TEMPORAL_CLUSTERING")
  cluster_key : Int × Int := (0, 0)
  risk_score : Nat × Nat := (0, 1)
  deriving DecidableEq

/-- The row loop of analyze_temporal_clustering over the dated, date-sorted rows:
    for each row, the window of plus-or-minus windowDays around its issue date is
    counted over all dated rows; reaching the threshold emits a finding, whose
    construction reads the business_name column unguarded (KeyError — Except.error —
    if that column is absent, but only when some window actually reaches the
    threshold, because the access sits inside the emission branch). -/
def temporalLoop (t : LTable) (dated : List LRow) (w threshold : Nat) :
    List LRow → Except (List String) (List TemporalFinding)
  | [] => .ok []
  | r :: rest =>
    match r.issue_date with
    | none => temporalLoop t dated w threshold rest
    | some d =>
      let ws := d - (w : Int)
      let we := d + (w : Int)
      let inWindow := dated.filter (fun x => match x.issue_date with
        | some e => ws ≤ e && e ≤ we
        | none => false)
      if threshold ≤ inWindow.length then
        if !t.hasBusinessName then .error ["business_name"]
        else
          match temporalLoop t dated w threshold rest with
          | .error e => .error e
          | .ok fs =>
            .ok ({ window_start := ws, window_end := we,
                   license_count := inWindow.length,
                   businesses := pdUnique (inWindow.map (fun x => x.business_name)),
                   addresses := if t.hasAddress then
                       pdUnique (inWindow.map (fun x => x.address)) else [],
                   cluster_key := (ws, we) } :: fs)
      else temporalLoop t dated w threshold rest

/-- drop_duplicates(subset=[key]): keep the first row bearing each key. -/
def dedupByKeyAux [DecidableEq β] (key : α → β) (seen : List β) : List α → List α
  | [] => []
  | a :: l =>
    if key a ∈ seen then dedupByKeyAux key seen l
    else a :: dedupByKeyAux key (key a :: seen) l

/-- LicenseAnalyzer.analyze_temporal_clustering: empty result when issue_date is
    absent; otherwise restrict to dated rows, sort by date, scan windows,
    deduplicate by window key, sort by count descending and score each cluster by
    count over the maximum deduplicated count. -/
def analyzeTemporalClustering (t : LTable) (windowDays : Nat := 7)
    (threshold : Nat := 5) : Except (List String) (List TemporalFinding) :=
  if !t.hasIssueDate then .ok []
  else
    let dated := sortAscInt (fun r => (r.issue_date).getD 0)
      (t.rows.filter (fun r => r.issue_date.isSome))
    match temporalLoop t dated windowDays threshold dated with
    | .error e => .error e
    | .ok clusters =>
      if clusters = [] then .ok []
      else
        let ded := dedupByKeyAux (fun f => f.cluster_key) [] clusters
        let m := (ded.map (fun f => f.license_count)).foldr max 0
        .ok ((sortDescNat (fun f => f.license_count) ded).map
          (fun f => { f with risk_score := (f.license_count, m) }))

/-- One cluster record of analyze_name_similarity. The why_it_matters rationale
    string is display-only and omitted. -/
structure NameCluster where
  cluster_size : Nat
  names : List (List Nat)
  license_count : Nat
  addresses : List (Option (List Nat))
  pattern_type : List Nat := s2l ("NAME_SIMILARITY")
  risk_score : Nat × Nat := (0, 1)
  deriving DecidableEq

/-- The greedy seed-relative grouping loop of analyze_name_similarity over the
    unique normalized names: a name already claimed by an earlier cluster is
    skipped; otherwise it seeds a cluster absorbing every later unclaimed name
    whose ratio to the seed reaches the threshold tn/td, and the cluster is kept
    (and its members claimed) only when it has at least two members. -/
def greedyClusters (tn td : Nat) : List (List Nat) → List (List Nat) → List (List (List Nat))
  | [], _ => []
  | n :: rest, claimed =>
    if n ∈ claimed then greedyClusters tn td rest claimed
    else
      let absorbed := rest.filter (fun m =>
        if m ∈ claimed then false else simGe tn td n m)
      if absorbed = [] then greedyClusters tn td rest claimed
      else (n :: absorbed) :: greedyClusters tn td rest (claimed ++ n :: absorbed)

/-- The unique non-null normalized business names of the analyzer table, in first
    occurrence order. -/
def laNames (t : LTable) : List (List Nat) :=
  pdUnique (t.rows.filterMap (fun r => anNameNorm r.business_name))

/-- Cluster record construction of analyze_name_similarity: license details come
    from the rows whose normalized name belongs to the cluster; the initial
    risk_score min(size/10, 1) is written as the fraction min(size,10)/10 (it is
    overwritten by the later normalization pass). -/
def mkNameCluster (t : LTable) (c : List (List Nat)) : NameCluster :=
  let rows := t.rows.filter (fun r => match anNameNorm r.business_name with
    | some n => n ∈ c
    | none => false)
  { cluster_size := c.length
    names := c
    license_count := rows.length
    addresses := if t.hasAddress then pdUnique (rows.map (fun r => r.address)) else []
    risk_score := (min c.length 10, 10) }

/-- The rescoring pass of analyze_name_similarity: when any clusters exist, each
    risk_score is overwritten with cluster_size over the maximum cluster_size. -/
def rescaleClusters (cs : List NameCluster) : List NameCluster :=
  let m := (cs.map (fun c => c.cluster_size)).foldr max 0
  if cs = [] then cs
  else cs.map (fun c => { c with risk_score := (c.cluster_size, m) })

/-- LicenseAnalyzer.analyze_name_similarity with threshold tn/td: empty when the
    normalized name column is absent (or when the optional Levenshtein dependency
    is missing — an environment condition outside this model); otherwise greedy
    clusters are built, rescored by cluster_size over the maximum cluster_size,
    and sorted by cluster_size descending. -/
def analyzeNameSimilarity (t : LTable) (tn td : Nat) : List NameCluster :=
  if !t.hasBusinessNameNormalized then []
  else sortDescNat (fun c => c.cluster_size)
    (rescaleClusters ((greedyClusters tn td (laNames t) []).map (mkNameCluster t)))

/-! ## CrossDatasetAnalyzer (src/cross_dataset_analyzer.py) -/

/-- A calendar date (a parsed pd.Timestamp), as year, month, day. -/
structure DateYMD where
  y : Int
  m : Int
  d : Int
  deriving DecidableEq

/-- Day number of a civil date (days since 1970-01-01, Hinnant's days_from_civil
    algorithm, exact integer arithmetic with floor division); timestamp differences
    in days are differences of these numbers. -/
def daysFromCivil (t : DateYMD) : Int :=
  let yy := if t.m ≤ 2 then t.y - 1 else t.y
  let era := Int.fdiv yy 400
  let yoe := yy - era * 400
  let mp := Int.emod (t.m + 9) 12
  let doy := Int.fdiv (153 * mp + 2) 5 + t.d - 1
  let doe := yoe * 365 + Int.fdiv yoe 4 - Int.fdiv yoe 100 + doy
  era * 146097 + doe - 719468

/-- One row of the cross-dataset licenses frame (columns renamed positionally by
    _load_licenses). -/
structure CLicRow where
  business_name : Option (List Nat) := none
  dba_name : Option (List Nat) := none
  address : Option (List Nat) := none
  geo_location : Option (List Nat) := none
  deriving DecidableEq

/-- One row of the contracts frame (_load_contracts). Dates are modelled after
    pd.to_datetime(..., errors='coerce'); monetary cells keep their raw form for
    _parse_currency. -/
structure ContractRow where
  agency : Option (List Nat) := none
  contract_number : Option (List Nat) := none
  contract_value : PyCell := PyCell.blank
  supplier : Option (List Nat) := none
  procurement_type : Option (List Nat) := none
  description : Option (List Nat) := none
  solicitation_type : Option (List Nat) := none
  effective_from : Option DateYMD := none
  effective_to : Option DateYMD := none
  deriving DecidableEq

/-- One row of the delinquent-taxes frame (_load_taxes). total_due and
    years_delinquent are modelled after pd.to_numeric(..., errors='coerce') as
    exact integers (the analysis only compares and sums them). -/
structure TaxRow where
  property_code : Option (List Nat) := none
  owner_name_1 : Option (List Nat) := none
  owner_name_2 : Option (List Nat) := none
  address : Option (List Nat) := none
  total_due : Option Int := none
  years_delinquent : Option Int := none
  geo_location : Option (List Nat) := none
  deriving DecidableEq

/- The normalized columns added once at construction time (_normalize_addresses,
   _normalize_names) are pure functions of the raw cells; they are recomputed on
   demand by the projections below. -/

def CLicRow.addrNorm (r : CLicRow) : List Nat := cdNormalizeAddr r.address

def CLicRow.bnNorm (r : CLicRow) : List Nat := cdNormalizeName r.business_name

def CLicRow.dbaNorm (r : CLicRow) : List Nat := cdNormalizeName r.dba_name

def ContractRow.supNorm (r : ContractRow) : List Nat := cdNormalizeName r.supplier

def ContractRow.valueNum (r : ContractRow) : Int × Nat := parseCurrency r.contract_value

def TaxRow.addrNorm (r : TaxRow) : List Nat := cdNormalizeAddr r.address

def TaxRow.ownerNorm (r : TaxRow) : List Nat := cdNormalizeName r.owner_name_1

/-- Exact similarity value 2·LCS / (|a|+|b|) as a fraction (the source rounds it to
    three decimals for display; the exact value is kept here). -/
def simFrac (a b : List Nat) : Nat × Nat := (2 * lcs a b, a.length + b.length)

def natFrac (p : Nat × Nat) : Int × Nat := ((p.1 : Int), p.2)

/-! ### analyze_address_clustering -/

def licAddrSet (lics : List CLicRow) : List (List Nat) :=
  pdUnique (lics.map CLicRow.addrNorm)

def taxAddrSet (taxes : List TaxRow) : List (List Nat) :=
  pdUnique (taxes.map TaxRow.addrNorm)

/-- The set intersection of normalized license and tax addresses (dropna is a
    no-op: normalize_addr never yields a missing value, the empty string stands for
    missing). Python iterates a hash set in implementation-defined order; the
    license first-occurrence order is used here and no theorem depends on it. -/
def sharedAddrList (lics : List CLicRow) (taxes : List TaxRow) : List (List Nat) :=
  (licAddrSet lics).filter (fun a => a ∈ taxAddrSet taxes)

/-- One cross-dataset overlap finding. avg_years_delinquent is the pandas mean over
    non-null values, none when there are none (NaN). risk_score is
    min(1, (license_count + tax_count)/10) written as the exact fraction
    min(license_count + tax_count, 10)/10. why_it_matters is omitted. -/
structure OverlapFinding where
  address : List Nat
  license_count : Nat
  tax_delinquent_count : Nat
  businesses : List (Option (List Nat))
  total_tax_due : Int
  avg_years_delinquent : Option (Int × Nat)
  pattern_type : List Nat := s2l ("ADDRESS_OVERLAP_LICENSE_TAX")
  risk_score : Nat × Nat := (0, 1)
  deriving DecidableEq

def mkOverlapFinding (lics : List CLicRow) (taxes : List TaxRow)
    (addr : List Nat) : OverlapFinding :=
  let lm := lics.filter (fun r => r.addrNorm = addr)
  let tm := taxes.filter (fun r => r.addrNorm = addr)
  let yrs := tm.filterMap (fun r => r.years_delinquent)
  { address := addr
    license_count := lm.length
    tax_delinquent_count := tm.length
    businesses := (lm.map (fun r => r.business_name)).take 5
    total_tax_due := (tm.filterMap (fun r => r.total_due)).foldl (· + ·) 0
    avg_years_delinquent :=
      if yrs.length = 0 then none else some (yrs.foldl (· + ·) 0, yrs.length)
    risk_score := (min (lm.length + tm.length) 10, 10) }

/-- The untruncated overlap findings: one per shared normalized address, skipping
    the empty (missing-address) key. -/
def overlapFindingsFull (lics : List CLicRow) (taxes : List TaxRow) :
    List OverlapFinding :=
  (sharedAddrList lics taxes).flatMap (fun addr =>
    if addr = [] then [] else [mkOverlapFinding lics taxes addr])

/-- value_counts() of the normalized license addresses: counts in descending count
    order (tie order in pandas is unspecified; stable first-occurrence order is
    used here). -/
def addrValueCounts (lics : List CLicRow) : List (List Nat × Nat) :=
  sortDescNat (fun p => p.2)
    ((pdUnique (lics.map CLicRow.addrNorm)).map
      (fun a => (a, (lics.filter (fun r => r.addrNorm = a)).length)))

/-- One within-licenses density finding of analyze_address_clustering. risk_score
    is min(1, count/10) as the fraction min(count, 10)/10. -/
structure CDDensityFinding where
  address : List Nat
  license_count : Nat
  businesses : List (Option (List Nat))
  dbas : List (List Nat)
  pattern_type : List Nat := s2l ("ADDRESS_DENSITY")
  risk_score : Nat × Nat := (0, 1)
  deriving DecidableEq

def densityFindingsFull (lics : List CLicRow) (threshold : Nat) :
    List CDDensityFinding :=
  ((addrValueCounts lics).filter (fun p => threshold ≤ p.2)).flatMap (fun p =>
    if p.1 = [] then []
    else
      [{ address := p.1
         license_count := p.2
         businesses := ((lics.filter (fun r => r.addrNorm = p.1)).map
           (fun r => r.business_name)).take 10
         dbas := ((lics.filter (fun r => r.addrNorm = p.1)).filterMap
           (fun r => r.dba_name)).take 10
         risk_score := (min p.2 10, 10) }])

/-- The result tree of analyze_address_clustering. The rounded overlap_percentage
    display field is omitted; the counts it is computed from are present. -/
structure ClusteringResult where
  cross_dataset_overlaps : List OverlapFinding
  address_density : List CDDensityFinding
  total_shared_addresses : Nat
  total_license_addresses : Nat
  total_tax_addresses : Nat
  overlap_count : Nat
  deriving DecidableEq

/-- CrossDatasetAnalyzer.analyze_address_clustering: overlap and density findings,
    each sorted by risk_score descending and truncated to the first 50; the summary
    counts come from the untruncated sets. -/
def analyzeAddressClustering (lics : List CLicRow) (taxes : List TaxRow)
    (threshold : Nat := 2) : ClusteringResult :=
  let findings := sortDescFrac (fun f => natFrac f.risk_score)
    (overlapFindingsFull lics taxes)
  let density := sortDescFrac (fun f => natFrac f.risk_score)
    (densityFindingsFull lics threshold)
  { cross_dataset_overlaps := findings.take 50
    address_density := density.take 50
    total_shared_addresses := (sharedAddrList lics taxes).length
    total_license_addresses := (licAddrSet lics).length
    total_tax_addresses := (taxAddrSet taxes).length
    overlap_count := (sharedAddrList lics taxes).length }

/-! ### analyze_name_similarity (cross-dataset) -/

def cdLicNames (lics : List CLicRow) : List (List Nat) :=
  pdUnique (lics.map CLicRow.bnNorm)

def cdSuppliers (cons : List ContractRow) : List (List Nat) :=
  pdUnique (cons.map ContractRow.supNorm)

def cdTaxOwners (taxes : List TaxRow) : List (List Nat) :=
  pdUnique (taxes.map TaxRow.ownerNorm)

/-- One license-to-contract-supplier match. sim is the exact similarity fraction
    (source rounds to 3 decimals for display); risk_score is the exact value of
    similarity * min(1, contract_count/5). why_it_matters is omitted. -/
structure LCMatch where
  license_name : List Nat
  contract_supplier : List Nat
  sim : Nat × Nat
  contract_count : Nat
  total_contract_value : Int × Nat
  agencies : List (Option (List Nat))
  pattern_type : List Nat := s2l ("LICENSE_CONTRACT_NAME_MATCH")
  risk_score : Int × Nat := (0, 1)
  deriving DecidableEq

def mkLCMatch (cons : List ContractRow) (ln sup : List Nat) : LCMatch :=
  let sc := cons.filter (fun c => c.supNorm = sup)
  { license_name := ln
    contract_supplier := sup
    sim := simFrac ln sup
    contract_count := sc.length
    total_contract_value := (sc.map ContractRow.valueNum).foldl fracAdd (0, 1)
    agencies := pdUnique (sc.map (fun c => c.agency))
    risk_score := (((2 * lcs ln sup) * min sc.length 5 : Nat),
      (ln.length + sup.length) * 5) }

/-- The untruncated license-to-supplier matches: every unique normalized license
    name against every unique normalized supplier, skipping names that are empty
    or shorter than 3 characters, keeping pairs whose ratio reaches tn/td. -/
def lcMatchesFull (lics : List CLicRow) (cons : List ContractRow) (tn td : Nat) :
    List LCMatch :=
  (cdLicNames lics).flatMap (fun ln =>
    if ln = [] ∨ ln.length < 3 then []
    else
      (cdSuppliers cons).flatMap (fun sup =>
        if sup = [] ∨ sup.length < 3 then []
        else if simGe tn td ln sup then [mkLCMatch cons ln sup] else []))

/-- One license-to-tax-owner match. risk_score is the exact value of
    similarity * min(1, total_due/10000). -/
structure LTMatch where
  license_name : List Nat
  tax_owner : List Nat
  sim : Nat × Nat
  property_count : Nat
  total_tax_due : Int
  pattern_type : List Nat := s2l ("LICENSE_TAX_OWNER_MATCH")
  risk_score : Int × Nat := (0, 1)
  deriving DecidableEq

def mkLTMatch (taxes : List TaxRow) (ln owner : List Nat) : LTMatch :=
  let orecs := taxes.filter (fun r => r.ownerNorm = owner)
  let due := (orecs.filterMap (fun r => r.total_due)).foldl (· + ·) 0
  { license_name := ln
    tax_owner := owner
    sim := simFrac ln owner
    property_count := orecs.length
    total_tax_due := due
    risk_score := ((2 * lcs ln owner : Int) * min due 10000,
      (ln.length + owner.length) * 10000) }

def ltMatchesFull (lics : List CLicRow) (taxes : List TaxRow) (tn td : Nat) :
    List LTMatch :=
  (cdLicNames lics).flatMap (fun ln =>
    if ln = [] ∨ ln.length < 3 then []
    else
      (cdTaxOwners taxes).flatMap (fun owner =>
        if owner = [] ∨ owner.length < 3 then []
        else if simGe tn td ln owner then [mkLTMatch taxes ln owner] else []))

/-- The result tree of the cross-dataset analyze_name_similarity. -/
structure NameSimResult where
  license_contract_matches : List LCMatch
  license_tax_owner_matches : List LTMatch
  total_license_names : Nat
  total_suppliers : Nat
  total_tax_owners : Nat
  license_contract_matches_found : Nat
  license_tax_matches_found : Nat
  deriving DecidableEq

/-- CrossDatasetAnalyzer.analyze_name_similarity with threshold tn/td: both match
    lists sorted by risk_score descending and truncated to the first 100; the
    summary counts are the untruncated match counts. -/
def analyzeNameSimilarityCross (lics : List CLicRow) (cons : List ContractRow)
    (taxes : List TaxRow) (tn td : Nat) : NameSimResult :=
  let m := sortDescFrac (fun x => x.risk_score) (lcMatchesFull lics cons tn td)
  let tdm := sortDescFrac (fun x => x.risk_score) (ltMatchesFull lics taxes tn td)
  { license_contract_matches := m.take 100
    license_tax_owner_matches := tdm.take 100
    total_license_names := (cdLicNames lics).length
    total_suppliers := (cdSuppliers cons).length
    total_tax_owners := (cdTaxOwners taxes).length
    license_contract_matches_found := (lcMatchesFull lics cons tn td).length
    license_tax_matches_found := (ltMatchesFull lics taxes tn td).length }

/-! ### analyze_tax_delinquent_overlaps -/

def taxDueGe (q : Int) (r : TaxRow) : Bool :=
  match r.total_due with
  | some v => q ≤ v
  | none => false

def taxYearsGe (q : Int) (r : TaxRow) : Bool :=
  match r.years_delinquent with
  | some v => q ≤ v
  | none => false

/-- The high-value subset: total_due at least 5000 (a missing amount never
    qualifies), sorted by total_due descending. -/
def highValueSorted (taxes : List TaxRow) : List TaxRow :=
  sortDescInt (fun r => (r.total_due).getD 0) (taxes.filter (taxDueGe 5000))

/-- One high-value-owner-to-business match (raw display fields from both rows). -/
structure TaxBizMatch where
  tax_owner : Option (List Nat)
  business_name : Option (List Nat)
  sim : Nat × Nat
  tax_address : Option (List Nat)
  business_address : Option (List Nat)
  total_due : Option Int
  years_delinquent : Option Int
  pattern_type : List Nat := s2l ("HIGH_VALUE_TAX_BUSINESS_MATCH")
  deriving DecidableEq

def mkTaxBizMatch (tr : TaxRow) (lr : CLicRow) : TaxBizMatch :=
  { tax_owner := tr.owner_name_1
    business_name := lr.business_name
    sim := simFrac tr.ownerNorm lr.bnNorm
    tax_address := tr.address
    business_address := lr.address
    total_due := tr.total_due
    years_delinquent := tr.years_delinquent }

/-- The untruncated owner/business matches of analyze_tax_delinquent_overlaps: the
    high-value subset is sorted by total_due descending, capped at its first 100
    rows, and cross-referenced against every license row at ratio threshold
    0.80. -/
def businessOwnerMatchesFull (taxes : List TaxRow) (lics : List CLicRow) :
    List TaxBizMatch :=
  ((highValueSorted taxes).take 100).flatMap (fun tr =>
    if tr.ownerNorm = [] ∨ tr.ownerNorm.length < 3 then []
    else
      lics.flatMap (fun lr =>
        if lr.bnNorm = [] ∨ lr.bnNorm.length < 3 then []
        else if simGe 4 5 tr.ownerNorm lr.bnNorm then [mkTaxBizMatch tr lr]
        else []))

/-- One contract-supplier-to-tax-owner match (threshold 0.85). -/
structure SupTaxMatch where
  supplier : List Nat
  tax_owner : Option (List Nat)
  sim : Nat × Nat
  contract_count : Nat
  contract_value : Int × Nat
  total_tax_due : Option Int
  years_delinquent : Option Int
  pattern_type : List Nat := s2l ("SUPPLIER_TAX_DELINQUENT")
  deriving DecidableEq

def supplierTaxMatchesFull (cons : List ContractRow) (taxes : List TaxRow) :
    List SupTaxMatch :=
  (cdSuppliers cons).flatMap (fun sup =>
    if sup = [] ∨ sup.length < 3 then []
    else
      taxes.flatMap (fun tr =>
        if tr.ownerNorm = [] ∨ tr.ownerNorm.length < 3 then []
        else if simGe 17 20 sup tr.ownerNorm then
          [{ supplier := sup
             tax_owner := tr.owner_name_1
             sim := simFrac sup tr.ownerNorm
             contract_count := (cons.filter (fun c => c.supNorm = sup)).length
             contract_value := ((cons.filter (fun c => c.supNorm = sup)).map
               ContractRow.valueNum).foldl fracAdd (0, 1)
             total_tax_due := tr.total_due
             years_delinquent := tr.years_delinquent }]
        else []))

structure TaxRecordBrief where
  owner_name_1 : Option (List Nat)
  address : Option (List Nat)
  total_due : Option Int
  years_delinquent : Option Int
  deriving DecidableEq

def TaxRow.brief (r : TaxRow) : TaxRecordBrief :=
  { owner_name_1 := r.owner_name_1, address := r.address,
    total_due := r.total_due, years_delinquent := r.years_delinquent }

/-- The result tree of analyze_tax_delinquent_overlaps. -/
structure TaxOverlapResult where
  high_value_delinquencies : List TaxRecordBrief
  long_term_delinquencies : List TaxRecordBrief
  business_owner_matches : List TaxBizMatch
  supplier_tax_matches : List SupTaxMatch
  total_delinquent_properties : Nat
  total_tax_due : Int
  high_value_count : Nat
  long_term_count : Nat
  business_matches_found : Nat
  supplier_matches_found : Nat
  deriving DecidableEq

/-- CrossDatasetAnalyzer.analyze_tax_delinquent_overlaps: the two independent cuts
    (total_due at least 5000; years_delinquent at least 3), the owner/business
    matches (sorted by total_due descending, first 30 kept) and the supplier/owner
    matches (sorted by contract value descending, first 30 kept); the summary
    counts are untruncated. -/
def analyzeTaxDelinquentOverlaps (lics : List CLicRow) (cons : List ContractRow)
    (taxes : List TaxRow) : TaxOverlapResult :=
  let hv := highValueSorted taxes
  let lt := sortDescInt (fun r => (r.years_delinquent).getD 0)
    (taxes.filter (taxYearsGe 3))
  let bm := sortDescInt (fun mt => (mt.total_due).getD 0)
    (businessOwnerMatchesFull taxes lics)
  let sm := sortDescFrac (fun mt => mt.contract_value)
    (supplierTaxMatchesFull cons taxes)
  { high_value_delinquencies := (hv.take 20).map TaxRow.brief
    long_term_delinquencies := (lt.take 20).map TaxRow.brief
    business_owner_matches := bm.take 30
    supplier_tax_matches := sm.take 30
    total_delinquent_properties := taxes.length
    total_tax_due := (taxes.filterMap (fun r => r.total_due)).foldl (· + ·) 0
    high_value_count := hv.length
    long_term_count := lt.length
    business_matches_found := (businessOwnerMatchesFull taxes lics).length
    supplier_matches_found := (supplierTaxMatchesFull cons taxes).length }

/-! ### analyze_contract_timing -/

/- analyze_contract_timing works on contracts = self.contracts.copy() and adds
   duration_days, start_month and start_date columns to that copy; the added
   columns are pure functions of the copied rows, modelled by the projections
   below, and the stored frame is untouched. -/

def ContractRow.durationDays (c : ContractRow) : Option Int :=
  match c.effective_from, c.effective_to with
  | some f, some t => some (daysFromCivil t - daysFromCivil f)
  | _, _ => none

def ContractRow.startMonth (c : ContractRow) : Option (Int × Int) :=
  c.effective_from.map (fun dt => (dt.y, dt.m))

def ContractRow.startDate (c : ContractRow) : Option DateYMD := c.effective_from

/-- groupby(start_month).size(): months with at least one dated contract and their
    contract counts (rows with a missing start month are dropped by groupby). -/
def monthlyCounts (cons : List ContractRow) : List ((Int × Int) × Nat) :=
  (pdUnique (cons.filterMap ContractRow.startMonth)).map
    (fun k => (k, (cons.filter (fun c => c.startMonth = some k)).length))

/-- The spike test count > mean + 2·std over the monthly counts, with the sample
    standard deviation (ddof = 1). With n ≤ 1 months the std is NaN and the
    comparison is false. For n ≥ 2 the test is evaluated exactly: writing S for the
    sum of counts, count > S/n + 2·std is equivalent (std being the nonnegative
    square root of Σ(cᵢ·n − S)² / (n²(n−1))) to
    count·n > S and (n−1)·(count·n − S)² > 4·Σᵢ(cᵢ·n − S)². -/
def spikeFlag (counts : List Nat) (c : Nat) : Bool :=
  let n := counts.length
  let s : Int := (counts.foldl (· + ·) 0 : Nat)
  if n ≤ 1 then false
  else
    decide (s < (c * n : Nat)) &&
      decide ((4 : Int) * (counts.map (fun x => ((x * n : Nat) - s) ^ 2)).foldl (· + ·) 0 <
        ((n : Int) - 1) * (((c * n : Nat) : Int) - s) ^ 2)

/-- One TEMPORAL_SPIKE finding. The deviation_from_mean display field needs the
    (irrational) std value and is display-only; it is omitted. -/
structure SpikeFinding where
  month : Int × Int
  contract_count : Nat
  total_value : Int × Nat
  suppliers : List (Option (List Nat))
  agencies : List (Option (List Nat))
  pattern_type : List Nat := s2l ("TEMPORAL_SPIKE")
  deriving DecidableEq

def temporalSpikes (cons : List ContractRow) : List SpikeFinding :=
  let counts := (monthlyCounts cons).map (fun p => p.2)
  (monthlyCounts cons).flatMap (fun p =>
    if spikeFlag counts p.2 then
      [{ month := p.1
         contract_count := p.2
         total_value := ((cons.filter (fun c => c.startMonth = some p.1)).map
           ContractRow.valueNum).foldl fracAdd (0, 1)
         suppliers := (pdUnique ((cons.filter (fun c => c.startMonth = some p.1)).map
           (fun c => c.supplier))).take 10
         agencies := pdUnique ((cons.filter (fun c => c.startMonth = some p.1)).map
           (fun c => c.agency)) }]
    else [])

structure SameDayFinding where
  date : DateYMD
  contract_count : Nat
  total_value : Int × Nat
  suppliers : List (Option (List Nat))
  pattern_type : List Nat := s2l ("SAME_DAY_AWARDS")
  deriving DecidableEq

def sameDayFindingsFull (cons : List ContractRow) : List SameDayFinding :=
  (pdUnique (cons.filterMap ContractRow.startDate)).flatMap (fun dt =>
    if 3 ≤ (cons.filter (fun c => c.startDate = some dt)).length then
      [{ date := dt
         contract_count := (cons.filter (fun c => c.startDate = some dt)).length
         total_value := ((cons.filter (fun c => c.startDate = some dt)).map
           ContractRow.valueNum).foldl fracAdd (0, 1)
         suppliers := pdUnique ((cons.filter (fun c => c.startDate = some dt)).map
           (fun c => c.supplier)) }]
    else [])

structure ShortFinding where
  contract_number : Option (List Nat)
  supplier : Option (List Nat)
  agency : Option (List Nat)
  duration_days : Int
  value : Int × Nat
  pattern_type : List Nat := s2l ("SHORT_DURATION")
  deriving DecidableEq

/-- contracts[duration_days < 30]: a missing duration (NaN) never passes the
    comparison; the per-row notna re-check inside the source loop is therefore
    redundant. -/
def shortContractsFull (cons : List ContractRow) : List ShortFinding :=
  cons.flatMap (fun c =>
    match c.durationDays with
    | some d =>
      if d < 30 then
        [{ contract_number := c.contract_number
           supplier := c.supplier
           agency := c.agency
           duration_days := d
           value := c.valueNum }]
      else []
    | none => [])

/-- The result tree of analyze_contract_timing. The summary mean of monthly counts
    is kept as the exact fraction sum-of-counts over number-of-months (the source
    rounds it to one decimal for display; zero months gives the NaN mean,
    represented by the zero denominator). -/
structure TimingResult where
  temporal_spikes : List SpikeFinding
  same_day_awards : List SameDayFinding
  short_duration_contracts : List ShortFinding
  avg_monthly_num : Nat
  avg_monthly_den : Nat
  months_with_spikes : Nat
  days_with_multiple_awards : Nat
  short_duration_count : Nat
  deriving DecidableEq

/-- CrossDatasetAnalyzer.analyze_contract_timing. -/
def analyzeContractTiming (cons : List ContractRow) : TimingResult :=
  { temporal_spikes := temporalSpikes cons
    same_day_awards := (sameDayFindingsFull cons).take 50
    short_duration_contracts := (shortContractsFull cons).take 50
    avg_monthly_num := ((monthlyCounts cons).map (fun p => p.2)).foldl (· + ·) 0
    avg_monthly_den := (monthlyCounts cons).length
    months_with_spikes := (temporalSpikes cons).length
    days_with_multiple_awards := (sameDayFindingsFull cons).length
    short_duration_count := (shortContractsFull cons).length }

/-! ### Analyzer state (frame conditions) -/

/-- The stored state of a CrossDatasetAnalyzer instance after construction: the
    three loaded and normalized frames. -/
structure CDState where
  licenses : List CLicRow := []
  contracts : List ContractRow := []
  taxes : List TaxRow := []
  deriving DecidableEq

/- Each analyze method reads the stored frames, works on fresh or copied frames
   and never assigns to the instance; as state transformers they return the state
   unchanged next to their result. -/

def cdAnalyzeContractTiming (st : CDState) : CDState × TimingResult :=
  (st, analyzeContractTiming st.contracts)

def cdAnalyzeAddressClustering (st : CDState) (threshold : Nat) :
    CDState × ClusteringResult :=
  (st, analyzeAddressClustering st.licenses st.taxes threshold)

def cdAnalyzeNameSimilarity (st : CDState) (tn td : Nat) : CDState × NameSimResult :=
  (st, analyzeNameSimilarityCross st.licenses st.contracts st.taxes tn td)

def cdAnalyzeTaxOverlaps (st : CDState) : CDState × TaxOverlapResult :=
  (st, analyzeTaxDelinquentOverlaps st.licenses st.contracts st.taxes)

def laAnalyzeAddressDensity (st : LTable) (threshold : Nat) :
    LTable × Except (List String) (List AddrDensityFinding) :=
  (st, analyzeAddressDensity st threshold)

def laAnalyzeTemporal (st : LTable) (w threshold : Nat) :
    LTable × Except (List String) (List TemporalFinding) :=
  (st, analyzeTemporalClustering st w threshold)

def laAnalyzeNameSim (st : LTable) (tn td : Nat) : LTable × List NameCluster :=
  (st, analyzeNameSimilarity st tn td)

/-! ## Claim-modelled reference definitions (used only to refute claim wording) -/

/-- Modelled from the C3 claim wording (the code under test is normalizeNameStr
    itself): remove only the first suffix pattern in list order that matches at
    the end of the name, and nothing further. -/
def stripFirstMatchOnly (name : List Nat) : List Nat :=
  match suffixPats.find? (fun suf => !(subSuffix suf name == name)) with
  | some suf => subSuffix suf name
  | none => name

/-- normalize_name as the C3 claim describes it: at most one suffix stripped. -/
def normalizeNameFirstOnly (raw : List Nat) : List Nat :=
  pyStrip (collapseWs (stripFirstMatchOnly (pyStrip (pyUpper raw))))

/-- Modelled from the C5 claim wording (the code under test is
    businessOwnerMatchesFull): the high-value subset capped at its first 100 rows
    in input order — no sorting — cross-referenced identically. -/
def businessOwnerMatchesInputOrder (taxes : List TaxRow) (lics : List CLicRow) :
    List TaxBizMatch :=
  ((taxes.filter (taxDueGe 5000)).take 100).flatMap (fun tr =>
    if tr.ownerNorm = [] ∨ tr.ownerNorm.length < 3 then []
    else
      lics.flatMap (fun lr =>
        if lr.bnNorm = [] ∨ lr.bnNorm.length < 3 then []
        else if simGe 4 5 tr.ownerNorm lr.bnNorm then [mkTaxBizMatch tr lr]
        else []))

/-! ## Concrete example data for the claim theorems -/

/-- C2 failing input: the required columns (license_id, business_name, address)
    are present, every optional column is absent. -/
def c2Table : LTable :=
  { rows := [{ license_id := some (s2l ("L1")), business_name := some (s2l ("ACME")),
               address := some (s2l ("1 A ST")) }],
    hasLicenseId := true, hasBusinessName := true, hasAddress := true }

/-- C1 witness input: three licenses at one address, all agg columns present. -/
def c1Table : LTable :=
  laInit
    { rows := [
        { license_id := some (s2l ("L1")), business_name := some (s2l ("A ONE")),
          address := some (s2l ("7 OAK ST")) },
        { license_id := some (s2l ("L2")), business_name := some (s2l ("A TWO")),
          address := some (s2l ("7 OAK ST")) },
        { license_id := some (s2l ("L3")), business_name := some (s2l ("A THREE")),
          address := some (s2l ("7 OAK ST")) }],
      hasLicenseId := true, hasBusinessName := true, hasDbaName := true,
      hasAddress := true, hasLicenseType := true, hasIssueDate := true }

/-- The density findings of the C1 witness input. -/
def c1Out : List AddrDensityFinding :=
  match analyzeAddressDensity c1Table 3 with
  | .ok o => o
  | .error _ => []

/-- C1 counterexample input: one license and one tax record sharing one address. -/
def c1xLics : List CLicRow :=
  [{ business_name := some (s2l ("BIZ ONE")), address := some (s2l ("100 MAIN ST")) }]

def c1xTaxes : List TaxRow :=
  [{ owner_name_1 := some (s2l ("OWNER X")), address := some (s2l ("100 MAIN ST")),
     total_due := some 700, years_delinquent := some 4 }]

/-- C10 counterexample input: a license row and a tax row both lacking an address,
    so both normalize to the empty string. -/
def c10Lics : List CLicRow := [{ business_name := some (s2l ("BIZ TWO")) }]

def c10Taxes : List TaxRow := [{ owner_name_1 := some (s2l ("OWNER B")) }]

/-- C5 counterexample input: 101 high-value tax rows; the lowest amount (the only
    owner matching the license) comes first in input order but last in the
    total_due ranking. -/
def c5Taxes : List TaxRow :=
  { owner_name_1 := some (s2l ("ABC")), total_due := some 5000 } ::
    (List.range 100).map (fun i =>
      { owner_name_1 := some (s2l ("XYZ")), total_due := some (5001 + (i : Int)) })

def c5Lics : List CLicRow := [{ business_name := some (s2l ("ABC")) }]

/-- C6 witness input: three business names where the second and third each match
    the first at threshold 4/5 but not each other. -/
def c6Table : LTable :=
  laInit
    { rows := [
        { business_name := some (s2l ("ABCDE")) },
        { business_name := some (s2l ("ABCDX")) },
        { business_name := some (s2l ("XBCDE")) }],
      hasBusinessName := true }

/-! ## Invariant predicates used by the normalization proofs -/

def UpperFixed (l : List Nat) : Prop := ∀ c ∈ l, toUpperN c = c

def NoLeadWs (l : List Nat) : Prop := ∀ c, l.head? = some c → isSpace c = false

def NoTrailWs (l : List Nat) : Prop := ∀ c, l.getLast? = some c → isSpace c = false

/-- The shape of a whitespace-collapsed string: every whitespace character is an
    ordinary space, and no two adjacent characters are both whitespace. -/
def WsCollapsed (l : List Nat) : Prop :=
  (∀ c ∈ l, isSpace c = true → c = 32) ∧
    List.Chain' (fun a b => ¬(isSpace a = true ∧ isSpace b = true)) l

def AllWord (l : List Nat) : Prop := ∀ c ∈ l, isWordChar c = true

def runKind : List Nat → Bool
  | [] => false
  | c :: _ => isWordChar c

def Homog (r : List Nat) : Prop := ∀ c ∈ r, isWordChar c = runKind r

def RunsOK (rs : List (List Nat)) : Prop :=
  (∀ r ∈ rs, r ≠ [] ∧ Homog r) ∧ List.Chain' (fun a b => runKind a ≠ runKind b) rs

/-- The whole-word replacement table acting on one maximal run. -/
def applyPairs (ps : List (List Nat × List Nat)) (v : List Nat) : List Nat :=
  ps.foldl (fun w pr => if w = pr.1 then pr.2 else w) v

def foldRepl (ps : List (List Nat × List Nat)) (l : List Nat) : List Nat :=
  ps.foldl (fun a pr => replaceWordRun pr.1 pr.2 a) l

def PairsSane (ps : List (List Nat × List Nat)) : Prop :=
  ∀ pr ∈ ps, pr.1 ≠ [] ∧ AllWord pr.1 ∧ pr.2 ≠ [] ∧ AllWord pr.2

/-! # Theorems -/

/-! ## Generic list facts -/

theorem pdUniqueAux_sub [DecidableEq α] (seen : List α) (l : List α) :
    ∀ x ∈ pdUniqueAux seen l, x ∈ l ∧ x ∉ seen := by
  induction l generalizing seen with
  | nil => simp [pdUniqueAux]
  | cons a t ih =>
    intro x hx
    simp only [pdUniqueAux] at hx
    split at hx
    · rcases ih seen x hx with ⟨h1, h2⟩
      exact ⟨List.mem_cons_of_mem _ h1, h2⟩
    · rcases List.mem_cons.mp hx with rfl | hx'
      · exact ⟨List.mem_cons_self _ _, by assumption⟩
      · rcases ih (a :: seen) x hx' with ⟨h1, h2⟩
        exact ⟨List.mem_cons_of_mem _ h1, fun hs => h2 (List.mem_cons_of_mem _ hs)⟩

theorem pdUniqueAux_nodup [DecidableEq α] (seen : List α) (l : List α) :
    (pdUniqueAux seen l).Nodup := by
  induction l generalizing seen with
  | nil => simp [pdUniqueAux]
  | cons a t ih =>
    simp only [pdUniqueAux]
    split
    · exact ih seen
    · refine List.nodup_cons.mpr ⟨fun hmem => ?_, ih (a :: seen)⟩
      exact (pdUniqueAux_sub _ _ _ hmem).2 (List.mem_cons_self _ _)

theorem pdUnique_nodup [DecidableEq α] (l : List α) : (pdUnique l).Nodup :=
  pdUniqueAux_nodup [] l

theorem le_foldr_max (l : List Nat) : ∀ x ∈ l, x ≤ l.foldr max 0 := by
  induction l with
  | nil => simp
  | cons a t ih =>
    intro x hx
    rcases List.mem_cons.mp hx with rfl | hx'
    · exact le_max_left _ _
    · exact le_trans (ih x hx') (le_max_right _ _)

theorem foldr_max_mem (l : List Nat) (h : l ≠ []) : l.foldr max 0 ∈ l := by
  induction l with
  | nil => exact absurd rfl h
  | cons a t ih =>
    simp only [List.foldr]
    rcases eq_or_ne t [] with rfl | ht
    · simp
    · rcases le_total a (t.foldr max 0) with hle | hle
      · rw [max_eq_right hle]
        exact List.mem_cons_of_mem _ (ih ht)
      · rw [max_eq_left hle]
        exact List.mem_cons_self _ _

/-! ## Character facts -/

theorem toUpperN_idem (c : Nat) : toUpperN (toUpperN c) = toUpperN c := by
  unfold toUpperN
  by_cases h : 97 ≤ c ∧ c ≤ 122
  · rw [if_pos h, if_neg (by omega)]
  · rw [if_neg h, if_neg h]

theorem wordChar_not_space {c : Nat} (h : isWordChar c = true) : isSpace c = false := by
  simp only [isWordChar, Bool.or_eq_true, Bool.and_eq_true, decide_eq_true_eq,
    beq_iff_eq] at h
  simp only [isSpace, Bool.or_eq_false_iff, beq_eq_false_iff_ne, ne_eq]
  omega

theorem space_not_word {c : Nat} (h : isSpace c = true) : isWordChar c = false := by
  cases hw : isWordChar c
  · rfl
  · rw [wordChar_not_space hw] at h
    exact absurd h (by simp)

/-! ## Upper-casing facts -/

theorem upperFixed_pyUpper (l : List Nat) : UpperFixed (pyUpper l) := by
  intro c hc
  rcases List.mem_map.mp hc with ⟨d, _, rfl⟩
  exact toUpperN_idem d

theorem pyUpper_of_upperFixed {l : List Nat} (h : UpperFixed l) : pyUpper l = l := by
  unfold pyUpper
  induction l with
  | nil => rfl
  | cons a t ih =>
    simp only [List.map_cons]
    rw [h a (List.mem_cons_self _ _), ih (fun c hc => h c (List.mem_cons_of_mem _ hc))]

/-! ## Trimming facts -/

theorem mem_trimLead {l : List Nat} : ∀ x ∈ trimLead l, x ∈ l := by
  unfold trimLead
  induction l with
  | nil => simp
  | cons a t ih =>
    intro x hx
    rw [List.dropWhile_cons] at hx
    split at hx
    · exact List.mem_cons_of_mem _ (ih x hx)
    · exact hx

theorem mem_trimTrail {l : List Nat} : ∀ x ∈ trimTrail l, x ∈ l := by
  induction l with
  | nil => simp [trimTrail]
  | cons a t ih =>
    intro x hx
    simp only [trimTrail] at hx
    split at hx
    · split at hx
      · exact absurd hx (List.not_mem_nil x)
      · rw [List.mem_singleton] at hx
        subst hx
        exact List.mem_cons_self _ _
    · rcases List.mem_cons.mp hx with rfl | hx'
      · exact List.mem_cons_self _ _
      · exact List.mem_cons_of_mem _ (ih x hx')

theorem trimTrail_head {l : List Nat} :
    trimTrail l = [] ∨ (trimTrail l).head? = l.head? := by
  cases l with
  | nil => exact Or.inl rfl
  | cons a t =>
    simp only [trimTrail]
    split
    · split
      · exact Or.inl rfl
      · exact Or.inr rfl
    · exact Or.inr rfl

theorem noLeadWs_trimLead (l : List Nat) : NoLeadWs (trimLead l) := by
  unfold trimLead
  induction l with
  | nil => intro c h; simp at h
  | cons a t ih =>
    rw [List.dropWhile_cons]
    split
    · exact ih
    · next hp =>
      intro c h
      rw [List.head?_cons] at h
      injection h with h'
      subst h'
      simpa using hp

theorem noTrailWs_trimTrail (l : List Nat) : NoTrailWs (trimTrail l) := by
  induction l with
  | nil => intro c h; simp [trimTrail] at h
  | cons a t ih =>
    intro c h
    simp only [trimTrail] at h
    split at h
    · split at h
      · simp at h
      · next hsp =>
        simp only [List.getLast?_singleton] at h
        injection h with h'
        subst h'
        simpa using hsp
    · next heq =>
      rw [show a :: trimTrail t = [a] ++ trimTrail t from rfl,
        List.getLast?_append_of_ne_nil _ (fun hh => heq hh)] at h
      exact ih c h

theorem trimLead_of_noLeadWs {l : List Nat} (h : NoLeadWs l) : trimLead l = l := by
  unfold trimLead
  cases l with
  | nil => rfl
  | cons a t =>
    rw [List.dropWhile_cons, if_neg]
    simp [h a rfl]

theorem trimTrail_of_noTrailWs {l : List Nat} (h : NoTrailWs l) : trimTrail l = l := by
  induction l with
  | nil => rfl
  | cons a t ih =>
    have ht : trimTrail t = t := by
      cases t with
      | nil => rfl
      | cons b r =>
        exact ih (fun c hc => h c (by rw [List.getLast?_cons_cons]; exact hc))
    simp only [trimTrail, ht]
    cases t with
    | nil =>
      rw [if_neg]
      simp [h a (by simp)]
    | cons b r => rfl

theorem noLeadWs_pyStrip (l : List Nat) : NoLeadWs (pyStrip l) := by
  unfold pyStrip
  rcases @trimTrail_head (trimLead l) with h | h
  · rw [h]; intro c hc; simp at hc
  · intro c hc
    rw [h] at hc
    exact noLeadWs_trimLead l c hc

theorem noTrailWs_pyStrip (l : List Nat) : NoTrailWs (pyStrip l) :=
  noTrailWs_trimTrail _

theorem pyStrip_of_stripped {l : List Nat} (h1 : NoLeadWs l) (h2 : NoTrailWs l) :
    pyStrip l = l := by
  unfold pyStrip
  rw [trimLead_of_noLeadWs h1, trimTrail_of_noTrailWs h2]

theorem mem_pyStrip {l : List Nat} : ∀ x ∈ pyStrip l, x ∈ l := fun x hx =>
  mem_trimLead x (mem_trimTrail x hx)

/-! ## Whitespace-collapse facts -/

theorem mem_collapseAux {l : List Nat} :
    ∀ b, ∀ x ∈ collapseAux b l, (x ∈ l ∧ isSpace x = false) ∨ x = 32 := by
  induction l with
  | nil => intro b x hx; simp [collapseAux] at hx
  | cons a t ih =>
    intro b x hx
    simp only [collapseAux] at hx
    split at hx
    · split at hx
      · rcases ih true x hx with ⟨h1, h2⟩ | h
        · exact Or.inl ⟨List.mem_cons_of_mem _ h1, h2⟩
        · exact Or.inr h
      · rcases List.mem_cons.mp hx with rfl | hx'
        · exact Or.inr rfl
        · rcases ih true x hx' with ⟨h1, h2⟩ | h
          · exact Or.inl ⟨List.mem_cons_of_mem _ h1, h2⟩
          · exact Or.inr h
    · next hsp =>
      rcases List.mem_cons.mp hx with rfl | hx'
      · exact Or.inl ⟨List.mem_cons_self _ _, by simpa using hsp⟩
      · rcases ih false x hx' with ⟨h1, h2⟩ | h
        · exact Or.inl ⟨List.mem_cons_of_mem _ h1, h2⟩
        · exact Or.inr h

theorem collapseAux_true_head (l : List Nat) :
    ∀ c, (collapseAux true l).head? = some c → isSpace c = false := by
  induction l with
  | nil => intro c h; simp [collapseAux] at h
  | cons a t ih =>
    intro c h
    simp only [collapseAux, if_true] at h
    split at h
    · exact ih c h
    · next hsp =>
      rw [List.head?_cons] at h
      injection h with h'
      subst h'
      simpa using hsp

theorem chain_collapseAux (l : List Nat) : ∀ b,
    List.Chain' (fun a b' => ¬(isSpace a = true ∧ isSpace b' = true)) (collapseAux b l) := by
  induction l with
  | nil => intro b; simp [collapseAux]
  | cons a t ih =>
    intro b
    simp only [collapseAux]
    split
    · split
      · exact ih true
      · rw [List.chain'_cons']
        refine ⟨fun y hy => ?_, ih true⟩
        rintro ⟨-, hsp⟩
        rw [collapseAux_true_head t y hy] at hsp
        exact Bool.false_ne_true hsp
    · next hsp =>
      rw [List.chain'_cons']
      refine ⟨fun y hy => ?_, ih false⟩
      rintro ⟨h1, -⟩
      exact hsp h1

theorem collapsed_collapseWs (l : List Nat) : WsCollapsed (collapseWs l) := by
  constructor
  · intro c hc hsp
    rcases mem_collapseAux false c hc with ⟨-, h2⟩ | h
    · rw [h2] at hsp; exact absurd hsp (by simp)
    · exact h
  · exact chain_collapseAux l false

theorem collapseAux_flag {t : List Nat}
    (h : ∀ c, t.head? = some c → isSpace c = false) :
    collapseAux true t = collapseAux false t := by
  cases t with
  | nil => rfl
  | cons a r =>
    have := h a rfl
    simp [collapseAux, this]

theorem collapseAux_cons_space {a : Nat} (ha : isSpace a = true) (l : List Nat) :
    collapseAux false (a :: l) = 32 :: collapseAux true l := by
  simp [collapseAux, ha]

theorem collapseAux_cons_space' {a : Nat} (ha : isSpace a = true) (l : List Nat) :
    collapseAux true (a :: l) = collapseAux true l := by
  simp [collapseAux, ha]

theorem collapseAux_cons_nonspace {a : Nat} (ha : isSpace a = false) (b : Bool)
    (l : List Nat) : collapseAux b (a :: l) = a :: collapseAux false l := by
  simp [collapseAux, ha]

theorem collapseWs_of_collapsed : ∀ {l : List Nat}, WsCollapsed l → collapseWs l = l := by
  intro l
  unfold collapseWs
  induction l with
  | nil => intro _; rfl
  | cons a t ih =>
    rintro ⟨hchar, hchain⟩
    have hchart : ∀ c ∈ t, isSpace c = true → c = 32 :=
      fun c hc => hchar c (List.mem_cons_of_mem _ hc)
    have hchaint := hchain.tail
    simp only [List.tail_cons] at hchaint
    cases hsp : isSpace a with
    | false =>
      rw [collapseAux_cons_nonspace hsp, ih ⟨hchart, hchaint⟩]
    | true =>
      have ha32 : a = 32 := hchar a (List.mem_cons_self _ _) hsp
      have hhead : ∀ c, t.head? = some c → isSpace c = false := by
        intro c hc
        have hr := (List.chain'_cons'.mp hchain).1 c hc
        cases hcs : isSpace c with
        | false => rfl
        | true => exact absurd ⟨hsp, hcs⟩ hr
      rw [collapseAux_cons_space hsp, collapseAux_flag hhead, ih ⟨hchart, hchaint⟩, ha32]

theorem noLeadWs_collapseWs {l : List Nat} (h : NoLeadWs l) :
    NoLeadWs (collapseWs l) := by
  cases l with
  | nil => intro c hc; simp [collapseWs, collapseAux] at hc
  | cons a t =>
    have ha := h a rfl
    intro c hc
    unfold collapseWs at hc
    rw [collapseAux_cons_nonspace ha, List.head?_cons] at hc
    injection hc with h'
    subst h'
    exact ha

theorem collapseAux_ne_nil {l : List Nat} {c : Nat} (h : l.getLast? = some c)
    (hc : isSpace c = false) : ∀ b, collapseAux b l ≠ [] := by
  induction l with
  | nil => simp at h
  | cons a t ih =>
    intro b
    cases t with
    | nil =>
      simp only [List.getLast?_singleton] at h
      injection h with h'
      subst h'
      rw [collapseAux_cons_nonspace hc]
      simp
    | cons x r =>
      have h' : (x :: r).getLast? = some c := by
        rw [show a :: x :: r = [a] ++ x :: r from rfl,
          List.getLast?_append_of_ne_nil [a] (List.cons_ne_nil x r)] at h
        exact h
      cases hsp : isSpace a with
      | true =>
        cases b with
        | true =>
          rw [collapseAux_cons_space' hsp]
          exact ih h' true
        | false =>
          rw [collapseAux_cons_space hsp]
          simp
      | false =>
        rw [collapseAux_cons_nonspace hsp]
        simp

theorem noTrailWs_collapseAux {l : List Nat} (h : NoTrailWs l) :
    ∀ b, NoTrailWs (collapseAux b l) := by
  induction l with
  | nil => intro b c hc; simp [collapseAux] at hc
  | cons a t ih =>
    intro b c hc
    have htail : NoTrailWs t := by
      intro d hd
      cases t with
      | nil => simp at hd
      | cons x r =>
        refine h d ?_
        rw [show a :: x :: r = [a] ++ x :: r from rfl,
          List.getLast?_append_of_ne_nil [a] (List.cons_ne_nil x r)]
        exact hd
    cases t with
    | nil =>
      have ha := h a (by simp)
      rw [collapseAux_cons_nonspace ha] at hc
      simp only [collapseAux, List.getLast?_singleton] at hc
      injection hc with h'
      subst h'
      exact ha
    | cons x r =>
      have hne : ∀ b', collapseAux b' (x :: r) ≠ [] := by
        obtain ⟨d, hd⟩ := Option.isSome_iff_exists.mp
          (List.getLast?_isSome.mpr (List.cons_ne_nil x r))
        exact collapseAux_ne_nil hd (htail d hd)
      cases hsp : isSpace a with
      | true =>
        cases b with
        | true =>
          rw [collapseAux_cons_space' hsp] at hc
          exact ih htail true c hc
        | false =>
          rw [collapseAux_cons_space hsp,
            show (32 : Nat) :: collapseAux true (x :: r) =
              [32] ++ collapseAux true (x :: r) from rfl,
            List.getLast?_append_of_ne_nil [32] (hne true)] at hc
          exact ih htail true c hc
      | false =>
        rw [collapseAux_cons_nonspace hsp,
          show a :: collapseAux false (x :: r) =
            [a] ++ collapseAux false (x :: r) from rfl,
          List.getLast?_append_of_ne_nil [a] (hne false)] at hc
        exact ih htail false c hc

theorem noTrailWs_collapseWs {l : List Nat} (h : NoTrailWs l) :
    NoTrailWs (collapseWs l) :=
  noTrailWs_collapseAux h false

/-! ## Run decomposition facts -/

theorem chunkAux_flatten (c : Nat) (rs : List (List Nat)) :
    (chunkAux c rs).flatten = c :: rs.flatten := by
  match rs with
  | [] => rfl
  | [] :: more => rfl
  | (d :: run) :: more =>
    simp only [chunkAux]
    split <;> simp

theorem chunkRuns_flatten (l : List Nat) : (chunkRuns l).flatten = l := by
  induction l with
  | nil => rfl
  | cons c rest ih =>
    simp only [chunkRuns]
    rw [chunkAux_flatten, ih]

theorem chunkRuns_head (x : Nat) (l : List Nat) :
    ∃ r more, chunkRuns (x :: l) = (x :: r) :: more := by
  cases hcr : chunkRuns l with
  | nil => exact ⟨[], [], by simp [chunkRuns, hcr, chunkAux]⟩
  | cons r0 more =>
    cases r0 with
    | nil => exact ⟨[], more, by simp [chunkRuns, hcr, chunkAux]⟩
    | cons d run =>
      by_cases hk : isWordChar x = isWordChar d
      · exact ⟨d :: run, more, by simp [chunkRuns, hcr, chunkAux, hk]⟩
      · exact ⟨[], (d :: run) :: more, by simp [chunkRuns, hcr, chunkAux, hk]⟩

theorem mem_of_getLast' {α : Type} : ∀ {l : List α} {c : α}, l.getLast? = some c → c ∈ l := by
  intro l
  induction l with
  | nil => intro c h; simp at h
  | cons a t ih =>
    intro c h
    cases t with
    | nil =>
      simp only [List.getLast?_singleton] at h
      injection h with h'
      subst h'
      exact List.mem_cons_self _ _
    | cons b r =>
      rw [List.getLast?_cons_cons] at h
      exact List.mem_cons_of_mem _ (ih h)

theorem runsOK_chunkRuns (l : List Nat) : RunsOK (chunkRuns l) := by
  induction l with
  | nil =>
    exact ⟨fun r hr => absurd hr (List.not_mem_nil r), List.chain'_nil⟩
  | cons c rest ih =>
    obtain ⟨hmem, hchain⟩ := ih
    cases hcr : chunkRuns rest with
    | nil =>
      have hred : chunkRuns (c :: rest) = [[c]] := by simp [chunkRuns, hcr, chunkAux]
      rw [hred]
      constructor
      · intro r hr
        rw [List.mem_singleton] at hr
        subst hr
        refine ⟨by simp, fun d hd => ?_⟩
        rw [List.mem_singleton] at hd
        subst hd
        rfl
      · exact List.chain'_singleton _
    | cons r0 more =>
      cases r0 with
      | nil =>
        exact absurd rfl ((hmem [] (by rw [hcr]; exact List.mem_cons_self _ _)).1)
      | cons d run =>
        have hd_homog := (hmem (d :: run) (by rw [hcr]; exact List.mem_cons_self _ _)).2
        by_cases hk : isWordChar c = isWordChar d
        · have hred : chunkRuns (c :: rest) = (c :: d :: run) :: more := by
            simp [chunkRuns, hcr, chunkAux, hk]
          rw [hred]
          constructor
          · intro r hr
            rcases List.mem_cons.mp hr with rfl | hr'
            · refine ⟨by simp, fun e he => ?_⟩
              rcases List.mem_cons.mp he with rfl | he'
              · rfl
              · have he2 := hd_homog e he'
                simp only [runKind] at he2 ⊢
                rw [he2]
                exact hk.symm
            · exact hmem r (by rw [hcr]; exact List.mem_cons_of_mem _ hr')
          · have hch : List.Chain' (fun a b => runKind a ≠ runKind b) ((d :: run) :: more) :=
              hcr ▸ hchain
            rw [List.chain'_cons'] at hch ⊢
            refine ⟨fun y hy => ?_, hch.2⟩
            have hrel := hch.1 y hy
            simp only [runKind] at hrel ⊢
            rw [hk]
            exact hrel
        · have hred : chunkRuns (c :: rest) = [c] :: (d :: run) :: more := by
            simp [chunkRuns, hcr, chunkAux, hk]
          rw [hred]
          constructor
          · intro r hr
            rcases List.mem_cons.mp hr with rfl | hr'
            · refine ⟨by simp, fun e he => ?_⟩
              rw [List.mem_singleton] at he
              subst he
              rfl
            · exact hmem r (by rw [hcr]; exact hr')
          · rw [List.chain'_cons']
            constructor
            · intro y hy
              have hyv : d :: run = y := by simpa using hy
              subst hyv
              simp only [runKind]
              exact hk
            · exact hcr ▸ hchain

theorem chunkRuns_append_run {r : List Nat} (hne : r ≠ []) (hhom : Homog r) :
    ∀ {X : List Nat},
      (X = [] ∨ ∀ x, X.head? = some x → isWordChar x ≠ runKind r) →
      chunkRuns (r ++ X) = r :: chunkRuns X := by
  induction r with
  | nil => exact absurd rfl hne
  | cons c r' ih =>
    intro X hX
    cases r' with
    | nil =>
      rcases hX with rfl | hX
      · simp [chunkRuns, chunkAux]
      · cases X with
        | nil => simp [chunkRuns, chunkAux]
        | cons x xs =>
          obtain ⟨rr, mm, hcr⟩ := chunkRuns_head x xs
          have hkx : isWordChar x ≠ runKind [c] := hX x rfl
          simp only [runKind] at hkx
          have hred : chunkRuns ([c] ++ x :: xs) = chunkAux c (chunkRuns (x :: xs)) := by
            simp [chunkRuns]
          rw [hred, hcr]
          simp only [chunkAux]
          rw [if_neg (by simp; exact fun hh => hkx hh.symm)]

    | cons c2 r'' =>
      have hk : isWordChar c = isWordChar c2 := by
        have h1 := hhom c (List.mem_cons_self _ _)
        have h2 := hhom c2 (List.mem_cons_of_mem _ (List.mem_cons_self _ _))
        rw [h1, h2]
      have hhom' : Homog (c2 :: r'') := by
        intro e he
        have he2 := hhom e (List.mem_cons_of_mem _ he)
        simp only [runKind] at he2 ⊢
        rw [he2]
        exact hk
      have hX' : (X = [] ∨ ∀ x, X.head? = some x → isWordChar x ≠ runKind (c2 :: r'')) := by
        rcases hX with rfl | hX
        · exact Or.inl rfl
        · refine Or.inr fun x hx => ?_
          have hx2 := hX x hx
          simp only [runKind] at hx2 ⊢
          rw [← hk]
          exact hx2
      have ihred := ih (List.cons_ne_nil _ _) hhom' hX'
      simp only [List.cons_append] at ihred ⊢
      simp only [chunkRuns]
      rw [show chunkRuns (c2 :: (r'' ++ X)) = chunkAux c2 (chunkRuns (r'' ++ X)) from rfl] at ihred
      rw [show chunkAux c (chunkAux c2 (chunkRuns (r'' ++ X))) =
        chunkAux c ((c2 :: r'') :: chunkRuns X) from by rw [ihred]]
      simp only [chunkAux]
      rw [if_pos (by simp [hk])]

theorem runsOK_rechunk : ∀ {rs : List (List Nat)}, RunsOK rs → chunkRuns rs.flatten = rs := by
  intro rs
  induction rs with
  | nil => intro _; rfl
  | cons r rest ih =>
    rintro ⟨hmem, hchain⟩
    obtain ⟨hne, hhom⟩ := hmem r (List.mem_cons_self _ _)
    have hrest : RunsOK rest := by
      refine ⟨fun q hq => hmem q (List.mem_cons_of_mem _ hq), ?_⟩
      have := hchain.tail
      simpa using this
    have hX : rest.flatten = [] ∨
        ∀ x, (rest.flatten).head? = some x → isWordChar x ≠ runKind r := by
      cases rest with
      | nil => exact Or.inl rfl
      | cons q qs =>
        right
        intro x hx
        obtain ⟨hqne, hqhom⟩ := hmem q (List.mem_cons_of_mem _ (List.mem_cons_self _ _))
        have hq : (q :: qs).flatten.head? = q.head? := by
          rw [List.flatten_cons, List.head?_append_of_ne_nil q hqne]
        rw [hq] at hx
        have hxq : x ∈ q := List.mem_of_mem_head? hx
        have h1 := hqhom x hxq
        have h2 := (List.chain'_cons'.mp hchain).1 q (by rw [List.head?_cons]; rfl)
        rw [h1]
        exact fun hh => h2 hh.symm
    rw [List.flatten_cons, chunkRuns_append_run hne hhom hX, ih hrest]

/-! ## Whole-word replacement facts -/

theorem allWord_runKind {r : List Nat} (hne : r ≠ []) (hw : AllWord r) :
    runKind r = true := by
  cases r with
  | nil => exact absurd rfl hne
  | cons a t => exact hw a (List.mem_cons_self _ _)

theorem applyPairs_cons (pr : List Nat × List Nat) (ps : List (List Nat × List Nat))
    (v : List Nat) :
    applyPairs (pr :: ps) v = applyPairs ps (if v = pr.1 then pr.2 else v) := rfl

theorem applyPairs_mem (ps : List (List Nat × List Nat)) (v : List Nat) :
    applyPairs ps v ∈ v :: ps.map Prod.snd := by
  induction ps generalizing v with
  | nil => exact List.mem_cons_self _ _
  | cons pr ps' ih =>
    rw [applyPairs_cons]
    by_cases h : v = pr.1
    · rw [if_pos h]
      exact List.mem_cons_of_mem _ (ih pr.2)
    · rw [if_neg h]
      rcases List.mem_cons.mp (ih v) with h2 | h2
      · rw [h2]
        exact List.mem_cons_self _ _
      · exact List.mem_cons_of_mem _ (List.mem_cons_of_mem _ h2)

theorem applyPairs_kind {ps : List (List Nat × List Nat)} (hs : PairsSane ps) :
    ∀ v, runKind (applyPairs ps v) = runKind v := by
  induction ps with
  | nil => intro v; rfl
  | cons pr ps' ih =>
    intro v
    have hs' : PairsSane ps' := fun q hq => hs q (List.mem_cons_of_mem _ hq)
    obtain ⟨hp1, hp2, hp3, hp4⟩ := hs pr (List.mem_cons_self _ _)
    rw [applyPairs_cons, ih hs']
    by_cases h : v = pr.1
    · rw [if_pos h, h, allWord_runKind hp3 hp4, allWord_runKind hp1 hp2]
    · rw [if_neg h]

theorem applyPairs_ok {ps : List (List Nat × List Nat)} (hs : PairsSane ps) :
    ∀ {v}, v ≠ [] → Homog v → applyPairs ps v ≠ [] ∧ Homog (applyPairs ps v) := by
  induction ps with
  | nil => intro v hv hh; exact ⟨hv, hh⟩
  | cons pr ps' ih =>
    intro v hv hh
    have hs' : PairsSane ps' := fun q hq => hs q (List.mem_cons_of_mem _ hq)
    obtain ⟨hp1, hp2, hp3, hp4⟩ := hs pr (List.mem_cons_self _ _)
    rw [applyPairs_cons]
    by_cases h : v = pr.1
    · rw [if_pos h]
      exact ih hs' hp3 (fun e he => by rw [hp4 e he, allWord_runKind hp3 hp4])
    · rw [if_neg h]
      exact ih hs' hv hh

set_option maxHeartbeats 2000000 in
theorem pairsSane_addrPairs : PairsSane addrPairs := by
  unfold PairsSane AllWord
  decide

set_option maxHeartbeats 2000000 in
theorem applyPairs_fix_repl : ∀ pr ∈ addrPairs, applyPairs addrPairs pr.2 = pr.2 := by
  unfold applyPairs
  decide

theorem applyPairs_idem (v : List Nat) :
    applyPairs addrPairs (applyPairs addrPairs v) = applyPairs addrPairs v := by
  rcases List.mem_cons.mp (applyPairs_mem addrPairs v) with h | h
  · rw [h]
    exact h
  · rcases List.mem_map.mp h with ⟨pr, hpr, heq⟩
    rw [← heq]
    exact applyPairs_fix_repl pr hpr

theorem foldRepl_cons (pr : List Nat × List Nat) (ps : List (List Nat × List Nat))
    (l : List Nat) : foldRepl (pr :: ps) l = foldRepl ps (replaceWordRun pr.1 pr.2 l) := rfl

theorem runsOK_map_one {l : List Nat} (pr : List Nat × List Nat)
    (hp1 : pr.1 ≠ []) (hp2 : AllWord pr.1) (hp3 : pr.2 ≠ []) (hp4 : AllWord pr.2) :
    RunsOK ((chunkRuns l).map (fun run => if run = pr.1 then pr.2 else run)) := by
  obtain ⟨hmem, hchain⟩ := runsOK_chunkRuns l
  constructor
  · intro r hr
    rcases List.mem_map.mp hr with ⟨run, hrun, rfl⟩
    obtain ⟨hne, hhom⟩ := hmem run hrun
    by_cases h : run = pr.1
    · rw [if_pos h]
      exact ⟨hp3, fun e he => by rw [hp4 e he, allWord_runKind hp3 hp4]⟩
    · rw [if_neg h]
      exact ⟨hne, hhom⟩
  · rw [List.chain'_map]
    have hkind : ∀ run, runKind (if run = pr.1 then pr.2 else run) = runKind run := by
      intro run
      by_cases h : run = pr.1
      · rw [if_pos h, h, allWord_runKind hp3 hp4, allWord_runKind hp1 hp2]
      · rw [if_neg h]
    exact hchain.imp (fun {a b} hab => by rw [hkind a, hkind b]; exact hab)

theorem foldRepl_runs : ∀ (ps : List (List Nat × List Nat)), PairsSane ps →
    ∀ l, foldRepl ps l = ((chunkRuns l).map (applyPairs ps)).flatten := by
  intro ps
  induction ps with
  | nil =>
    intro _ l
    have h1 : foldRepl [] l = l := rfl
    have h2 : applyPairs ([] : List (List Nat × List Nat)) = id := funext fun v => rfl
    rw [h1, h2, List.map_id, chunkRuns_flatten]
  | cons pr ps' ih =>
    intro hs l
    have hs' : PairsSane ps' := fun q hq => hs q (List.mem_cons_of_mem _ hq)
    obtain ⟨hp1, hp2, hp3, hp4⟩ := hs pr (List.mem_cons_self _ _)
    rw [foldRepl_cons, ih hs']
    have hrw : replaceWordRun pr.1 pr.2 l =
        ((chunkRuns l).map (fun run => if run = pr.1 then pr.2 else run)).flatten := rfl
    rw [hrw, runsOK_rechunk (runsOK_map_one pr hp1 hp2 hp3 hp4), List.map_map]
    congr 1

set_option maxHeartbeats 2000000 in
theorem foldRepl_fix (l : List Nat) :
    foldRepl addrPairs (foldRepl addrPairs l) = foldRepl addrPairs l := by
  have e1 := foldRepl_runs addrPairs pairsSane_addrPairs l
  rw [e1]
  have e2 := foldRepl_runs addrPairs pairsSane_addrPairs
    (((chunkRuns l).map (applyPairs addrPairs)).flatten)
  rw [e2]
  have hOK : RunsOK ((chunkRuns l).map (applyPairs addrPairs)) := by
    obtain ⟨hmem, hchain⟩ := runsOK_chunkRuns l
    constructor
    · intro r hr
      rcases List.mem_map.mp hr with ⟨run, hrun, rfl⟩
      obtain ⟨hne, hhom⟩ := hmem run hrun
      exact applyPairs_ok pairsSane_addrPairs hne hhom
    · rw [List.chain'_map]
      exact hchain.imp (fun {a b} hab => by
        rw [applyPairs_kind pairsSane_addrPairs a, applyPairs_kind pairsSane_addrPairs b]
        exact hab)
  rw [runsOK_rechunk hOK]
  rw [List.map_map]
  have hcong : ((chunkRuns l).map (applyPairs addrPairs ∘ applyPairs addrPairs)) =
      ((chunkRuns l).map (applyPairs addrPairs)) :=
    List.map_congr_left (fun run _ => by
      simp only [Function.comp_apply]
      exact applyPairs_idem run)
  rw [hcong]

/-! ## Normalized-address shape facts -/

theorem flatten_getLast' : ∀ (rs : List (List Nat)), (∀ r ∈ rs, r ≠ []) →
    rs.flatten.getLast? = rs.getLast?.bind (fun r => r.getLast?) := by
  intro rs
  induction rs with
  | nil => intro _; rfl
  | cons r rest ih =>
    intro hne
    cases rest with
    | nil => simp
    | cons q qs =>
      have hq := hne q (List.mem_cons_of_mem _ (List.mem_cons_self _ _))
      have hfne : (q :: qs).flatten ≠ [] := by
        rw [List.flatten_cons]
        intro hh
        exact hq (List.append_eq_nil.mp hh).1
      rw [List.flatten_cons, List.getLast?_append_of_ne_nil r hfne,
        ih (fun z hz => hne z (List.mem_cons_of_mem _ hz)), List.getLast?_cons_cons]

theorem getLast?_map' {α β : Type} (f : α → β) :
    ∀ l : List α, (l.map f).getLast? = l.getLast?.map f := by
  intro l
  induction l with
  | nil => rfl
  | cons a t ih =>
    cases t with
    | nil => rfl
    | cons b r =>
      rw [List.map_cons, List.map_cons, List.getLast?_cons_cons, ← List.map_cons, ih,
        List.getLast?_cons_cons]

theorem run_sub {l : List Nat} {run : List Nat} (hrun : run ∈ chunkRuns l) :
    ∀ c ∈ run, c ∈ l := by
  intro c hc
  have : c ∈ (chunkRuns l).flatten := List.mem_flatten.mpr ⟨run, hrun, hc⟩
  rwa [chunkRuns_flatten] at this

set_option maxHeartbeats 2000000 in
theorem addrRepl_upperFixed : ∀ pr ∈ addrPairs, ∀ c ∈ pr.2, toUpperN c = c := by
  unfold toUpperN
  decide

theorem upperFixed_z (x : List Nat) : UpperFixed (collapseWs (pyStrip (pyUpper x))) := by
  intro c hc
  rcases mem_collapseAux false c hc with ⟨h1, -⟩ | rfl
  · exact upperFixed_pyUpper x c (mem_pyStrip c h1)
  · decide

theorem collapsed_z (x : List Nat) : WsCollapsed (collapseWs (pyStrip (pyUpper x))) :=
  collapsed_collapseWs _

theorem noLeadWs_z (x : List Nat) : NoLeadWs (collapseWs (pyStrip (pyUpper x))) :=
  noLeadWs_collapseWs (noLeadWs_pyStrip _)

theorem noTrailWs_z (x : List Nat) : NoTrailWs (collapseWs (pyStrip (pyUpper x))) :=
  noTrailWs_collapseWs (noTrailWs_pyStrip _)

theorem normAddr_eq_runs (x : List Nat) :
    normalizeAddrStr x = ((chunkRuns (collapseWs (pyStrip (pyUpper x)))).map
      (applyPairs addrPairs)).flatten := by
  have h : normalizeAddrStr x = foldRepl addrPairs (collapseWs (pyStrip (pyUpper x))) := rfl
  rw [h, foldRepl_runs addrPairs pairsSane_addrPairs]

theorem applyPairs_word_chars {run : List Nat} (hne : run ≠ []) (hhom : Homog run)
    (hk : runKind run = true) :
    ∀ c ∈ applyPairs addrPairs run, isWordChar c = true := by
  intro c hc
  obtain ⟨-, hhom'⟩ := applyPairs_ok pairsSane_addrPairs hne hhom
  have hk' : runKind (applyPairs addrPairs run) = true := by
    rw [applyPairs_kind pairsSane_addrPairs run, hk]
  rw [hhom' c hc, hk']

theorem upperFixed_normAddr (x : List Nat) : UpperFixed (normalizeAddrStr x) := by
  rw [normAddr_eq_runs]
  intro c hc
  rcases List.mem_flatten.mp hc with ⟨r, hr, hcr⟩
  rcases List.mem_map.mp hr with ⟨run, hrun, rfl⟩
  rcases List.mem_cons.mp (applyPairs_mem addrPairs run) with heq | hmem
  · rw [heq] at hcr
    exact upperFixed_z x c (run_sub hrun c hcr)
  · rcases List.mem_map.mp hmem with ⟨pr, hpr, heq⟩
    rw [← heq] at hcr
    exact addrRepl_upperFixed pr hpr c hcr

theorem noLeadWs_normAddr (x : List Nat) : NoLeadWs (normalizeAddrStr x) := by
  rw [normAddr_eq_runs]
  cases hrs : chunkRuns (collapseWs (pyStrip (pyUpper x))) with
  | nil => intro c hc; simp at hc
  | cons run more =>
    obtain ⟨hmem, -⟩ := runsOK_chunkRuns (collapseWs (pyStrip (pyUpper x)))
    obtain ⟨hne, hhom⟩ := hmem run (by rw [hrs]; exact List.mem_cons_self _ _)
    obtain ⟨hAne, -⟩ := applyPairs_ok pairsSane_addrPairs hne hhom
    intro c hc
    rw [List.map_cons, List.flatten_cons,
      List.head?_append_of_ne_nil _ hAne] at hc
    rcases List.mem_cons.mp (applyPairs_mem addrPairs run) with heq | hmem2
    · rw [heq] at hc
      have hz : (collapseWs (pyStrip (pyUpper x))).head? = run.head? := by
        conv_lhs => rw [← chunkRuns_flatten (collapseWs (pyStrip (pyUpper x)))]
        rw [hrs, List.flatten_cons, List.head?_append_of_ne_nil _ hne]
      exact noLeadWs_z x c (by rw [hz]; exact hc)
    · rcases List.mem_map.mp hmem2 with ⟨pr, hpr, heq⟩
      rw [← heq] at hc
      obtain ⟨-, -, hp3, hp4⟩ := pairsSane_addrPairs pr hpr
      exact wordChar_not_space (hp4 c (List.mem_of_mem_head? hc))

theorem noTrailWs_normAddr (x : List Nat) : NoTrailWs (normalizeAddrStr x) := by
  rw [normAddr_eq_runs]
  obtain ⟨hmem, -⟩ := runsOK_chunkRuns (collapseWs (pyStrip (pyUpper x)))
  have hAll : ∀ r ∈ (chunkRuns (collapseWs (pyStrip (pyUpper x)))).map
      (applyPairs addrPairs), r ≠ [] := by
    intro r hr
    rcases List.mem_map.mp hr with ⟨run, hrun, rfl⟩
    obtain ⟨hne, hhom⟩ := hmem run hrun
    exact (applyPairs_ok pairsSane_addrPairs hne hhom).1
  intro c hc
  rw [flatten_getLast' _ hAll, getLast?_map' (applyPairs addrPairs)] at hc
  cases hrl : (chunkRuns (collapseWs (pyStrip (pyUpper x)))).getLast? with
  | none => rw [hrl] at hc; simp at hc
  | some rl =>
    rw [hrl] at hc
    rw [show Option.map (applyPairs addrPairs) (some rl) =
      some (applyPairs addrPairs rl) from rfl, Option.some_bind' _ _] at hc
    have hrlmem : rl ∈ chunkRuns (collapseWs (pyStrip (pyUpper x))) := mem_of_getLast' hrl
    obtain ⟨hne, hhom⟩ := hmem rl hrlmem
    rcases List.mem_cons.mp (applyPairs_mem addrPairs rl) with heq | hmem2
    · rw [heq] at hc
      have hz : (collapseWs (pyStrip (pyUpper x))).getLast? = rl.getLast? := by
        conv_lhs => rw [← chunkRuns_flatten (collapseWs (pyStrip (pyUpper x)))]
        rw [flatten_getLast' _ (fun r hr => (hmem r hr).1), hrl, Option.some_bind' _ _]
      exact noTrailWs_z x c (by rw [hz]; exact hc)
    · rcases List.mem_map.mp hmem2 with ⟨pr, hpr, heq⟩
      rw [← heq] at hc
      obtain ⟨-, -, hp3, hp4⟩ := pairsSane_addrPairs pr hpr
      exact wordChar_not_space (hp4 c (mem_of_getLast' hc))

theorem allWord_chain {r : List Nat} (hw : AllWord r) :
    List.Chain' (fun a b => ¬(isSpace a = true ∧ isSpace b = true)) r := by
  induction r with
  | nil => exact List.chain'_nil
  | cons a t ih =>
    rw [List.chain'_cons']
    refine ⟨fun y _ => ?_, ih (fun c hc => hw c (List.mem_cons_of_mem _ hc))⟩
    rintro ⟨h1, -⟩
    rw [wordChar_not_space (hw a (List.mem_cons_self _ _))] at h1
    exact Bool.false_ne_true h1

theorem boundary_chain : ∀ {rs : List (List Nat)}, RunsOK rs →
    List.Chain' (fun r1 r2 => ∀ u ∈ (applyPairs addrPairs r1).getLast?,
      ∀ v ∈ (applyPairs addrPairs r2).head?,
      ¬(isSpace u = true ∧ isSpace v = true)) rs := by
  intro rs
  induction rs with
  | nil => intro _; exact List.chain'_nil
  | cons r rest ih =>
    rintro ⟨hmem, hchain⟩
    rw [List.chain'_cons']
    constructor
    · intro r2 hr2 u hu v hv
      have hr2mem : r2 ∈ rest := List.mem_of_mem_head? hr2
      obtain ⟨hne1, hhom1⟩ := hmem r (List.mem_cons_self _ _)
      obtain ⟨hne2, hhom2⟩ := hmem r2 (List.mem_cons_of_mem _ hr2mem)
      have hkneq : runKind r ≠ runKind r2 := (List.chain'_cons'.mp hchain).1 r2 hr2
      rintro ⟨hsu, hsv⟩
      cases hk1 : runKind r with
      | true =>
        have hword := applyPairs_word_chars hne1 hhom1 hk1 u (mem_of_getLast' hu)
        rw [wordChar_not_space hword] at hsu
        exact Bool.false_ne_true hsu
      | false =>
        have hk2 : runKind r2 = true := by
          cases hk2 : runKind r2 with
          | true => rfl
          | false => exact absurd (hk1.trans hk2.symm) hkneq
        have hword := applyPairs_word_chars hne2 hhom2 hk2 v (List.mem_of_mem_head? hv)
        rw [wordChar_not_space hword] at hsv
        exact Bool.false_ne_true hsv
    · refine ih ⟨fun q hq => hmem q (List.mem_cons_of_mem _ hq), ?_⟩
      have := hchain.tail
      simpa using this

set_option maxHeartbeats 2000000 in
theorem collapsed_normAddr (x : List Nat) : WsCollapsed (normalizeAddrStr x) := by
  rw [normAddr_eq_runs]
  obtain ⟨hmem, hchain⟩ := runsOK_chunkRuns (collapseWs (pyStrip (pyUpper x)))
  obtain ⟨hcharz, hchainz⟩ := collapsed_z x
  have hAllne : ∀ r ∈ (chunkRuns (collapseWs (pyStrip (pyUpper x)))).map
      (applyPairs addrPairs), r ≠ [] := by
    intro r hr
    rcases List.mem_map.mp hr with ⟨run, hrun, rfl⟩
    obtain ⟨hne, hhom⟩ := hmem run hrun
    exact (applyPairs_ok pairsSane_addrPairs hne hhom).1
  have hLne : ([] : List Nat) ∉ chunkRuns (collapseWs (pyStrip (pyUpper x))) :=
    fun hmem0 => (hmem [] hmem0).1 rfl
  have hz_runs_chain := (List.chain'_flatten hLne).mp
    (by rw [chunkRuns_flatten]; exact hchainz)
  constructor
  · intro c hc hsp
    rcases List.mem_flatten.mp hc with ⟨r, hr, hcr⟩
    rcases List.mem_map.mp hr with ⟨run, hrun, rfl⟩
    rcases List.mem_cons.mp (applyPairs_mem addrPairs run) with heq | hmem2
    · rw [heq] at hcr
      exact hcharz c (run_sub hrun c hcr) hsp
    · rcases List.mem_map.mp hmem2 with ⟨pr, hpr, heq⟩
      rw [← heq] at hcr
      obtain ⟨-, -, hp3, hp4⟩ := pairsSane_addrPairs pr hpr
      rw [wordChar_not_space (hp4 c hcr)] at hsp
      exact absurd hsp (by simp)
  · refine (List.chain'_flatten (fun hmem0 => hAllne [] hmem0 rfl)).mpr ⟨?_, ?_⟩
    · intro r hr
      rcases List.mem_map.mp hr with ⟨run, hrun, rfl⟩
      rcases List.mem_cons.mp (applyPairs_mem addrPairs run) with heq | hmem2
      · rw [heq]
        exact hz_runs_chain.1 run hrun
      · rcases List.mem_map.mp hmem2 with ⟨pr, hpr, heq⟩
        rw [← heq]
        obtain ⟨-, -, hp3, hp4⟩ := pairsSane_addrPairs pr hpr
        exact allWord_chain hp4
    · rw [List.chain'_map]
      exact boundary_chain ⟨hmem, hchain⟩

set_option maxHeartbeats 2000000 in
theorem normalizeAddrStr_idem (x : List Nat) :
    normalizeAddrStr (normalizeAddrStr x) = normalizeAddrStr x := by
  have h0 : normalizeAddrStr (normalizeAddrStr x) =
      foldRepl addrPairs (collapseWs (pyStrip (pyUpper (normalizeAddrStr x)))) := rfl
  rw [h0, pyUpper_of_upperFixed (upperFixed_normAddr x),
    pyStrip_of_stripped (noLeadWs_normAddr x) (noTrailWs_normAddr x),
    collapseWs_of_collapsed (collapsed_normAddr x)]
  have h1 : normalizeAddrStr x = foldRepl addrPairs (collapseWs (pyStrip (pyUpper x))) := rfl
  rw [h1, foldRepl_fix]

/-! ## Normalized-name shape facts -/

theorem trimTrail_leading (l : List Nat) : trimTrail l <+: l := by
  induction l with
  | nil => exact ⟨[], rfl⟩
  | cons a t ih =>
    simp only [trimTrail]
    cases h : trimTrail t with
    | nil =>
      by_cases hsp : isSpace a = true
      · rw [if_pos hsp]
        exact ⟨a :: t, rfl⟩
      · rw [if_neg hsp]
        exact ⟨t, rfl⟩
    | cons b r =>
      obtain ⟨t', ht'⟩ := ih
      rw [h] at ht'
      exact ⟨t', by rw [List.cons_append, ht']⟩

theorem wsCollapsed_trimLead {l : List Nat} (h : WsCollapsed l) :
    WsCollapsed (trimLead l) := by
  obtain ⟨hchar, hchain⟩ := h
  exact ⟨fun c hc => hchar c (mem_trimLead c hc),
    hchain.suffix ⟨l.takeWhile isSpace, List.takeWhile_append_dropWhile isSpace l⟩⟩

theorem wsCollapsed_trimTrail {l : List Nat} (h : WsCollapsed l) :
    WsCollapsed (trimTrail l) := by
  obtain ⟨hchar, hchain⟩ := h
  exact ⟨fun c hc => hchar c (mem_trimTrail c hc), hchain.prefix (trimTrail_leading l)⟩

theorem wsCollapsed_pyStrip {l : List Nat} (h : WsCollapsed l) :
    WsCollapsed (pyStrip l) :=
  wsCollapsed_trimTrail (wsCollapsed_trimLead h)

theorem mem_subSuffix {suf name : List Nat} : ∀ x ∈ subSuffix suf name, x ∈ name := by
  intro x hx
  unfold subSuffix at hx
  simp only at hx
  split at hx
  · exact List.take_subset _ _ (mem_trimTrail x hx)
  · exact hx

theorem mem_stripSuffixes_gen : ∀ (ps : List (List Nat)) (name : List Nat),
    ∀ x ∈ ps.foldl (fun n suf => subSuffix suf n) name, x ∈ name := by
  intro ps
  induction ps with
  | nil => intro name x hx; exact hx
  | cons s ps' ih =>
    intro name x hx
    exact mem_subSuffix x (ih (subSuffix s name) x hx)

theorem mem_stripSuffixes {name : List Nat} : ∀ x ∈ stripSuffixes name, x ∈ name :=
  mem_stripSuffixes_gen suffixPats name

theorem upperFixed_normName (n : List Nat) : UpperFixed (normalizeNameStr n) := by
  intro c hc
  have h1 := mem_pyStrip c hc
  rcases mem_collapseAux false c h1 with ⟨h2, -⟩ | rfl
  · exact upperFixed_pyUpper n c (mem_pyStrip c (mem_stripSuffixes c h2))
  · decide

theorem collapsed_normName (n : List Nat) : WsCollapsed (normalizeNameStr n) :=
  wsCollapsed_pyStrip (collapsed_collapseWs _)

theorem noLeadWs_normName (n : List Nat) : NoLeadWs (normalizeNameStr n) :=
  noLeadWs_pyStrip _

theorem noTrailWs_normName (n : List Nat) : NoTrailWs (normalizeNameStr n) :=
  noTrailWs_pyStrip _

theorem anAddrNormStr_idem (s : List Nat) :
    collapseWs (pyStrip (pyUpper (collapseWs (pyStrip (pyUpper s))))) =
      collapseWs (pyStrip (pyUpper s)) := by
  rw [pyUpper_of_upperFixed (upperFixed_z s),
    pyStrip_of_stripped (noLeadWs_z s) (noTrailWs_z s),
    collapseWs_of_collapsed (collapsed_z s)]

/-! ## Claim C3 -/

/-- C3 counterexample: the claim says only the first matching suffix pattern in list
    order is removed and nothing further; on "ACME CORP LLC" the first matching
    pattern is LLC, so the claim predicts "ACME CORP" (normalizeNameFirstOnly), but
    normalize_name strips LLC and then CORP, yielding "ACME". -/
theorem C3_counterexample :
    normalizeNameStr (s2l ("ACME CORP LLC")) = s2l ("ACME") ∧
    normalizeNameFirstOnly (s2l ("ACME CORP LLC")) = s2l ("ACME CORP") ∧
    normalizeNameStr (s2l ("ACME CORP LLC")) ≠
      normalizeNameFirstOnly (s2l ("ACME CORP LLC")) := by
  refine ⟨by decide, by decide, by decide⟩

/-- C3 (amended): normalize_name applies each of the 13 suffix patterns once, in
    list order, to the evolving string. A single pattern application removes at most
    one trailing occurrence (the suffix together with the maximal whitespace run
    before it) or leaves the name unchanged; a later pattern can remove a suffix
    exposed by an earlier removal, so a name with stacked suffixes can lose several:
    "ACME CORP LLC" normalizes to "ACME", while "ACME LLC CORP" loses only CORP,
    normalizing to "ACME LLC". -/
theorem C3_amended :
    (∀ suf name : List Nat, subSuffix suf name = name ∨
      (name.drop (name.length - suf.length) = suf ∧
        lastIsSpace (name.take (name.length - suf.length)) = true ∧
        subSuffix suf name = trimTrail (name.take (name.length - suf.length)))) ∧
    normalizeNameStr (s2l ("ACME CORP LLC")) = s2l ("ACME") ∧
    normalizeNameStr (s2l ("ACME LLC CORP")) = s2l ("ACME LLC") := by
  refine ⟨?_, by decide, by decide⟩
  intro suf name
  unfold subSuffix
  simp only
  split
  · next hcond => exact Or.inr ⟨hcond.1, hcond.2, rfl⟩
  · exact Or.inl rfl

/-! ## Claim C4 -/

/-- C4 counterexample: name normalization is not idempotent. "ACME LLC CORP"
    normalizes to "ACME LLC" (only the CORP pattern matches on the first pass, the
    LLC pattern having already been processed), and normalizing again strips the now
    exposed LLC, giving "ACME". -/
theorem C4_counterexample :
    normalizeNameStr (s2l ("ACME LLC CORP")) = s2l ("ACME LLC") ∧
    normalizeNameStr (normalizeNameStr (s2l ("ACME LLC CORP"))) = s2l ("ACME") ∧
    normalizeNameStr (normalizeNameStr (s2l ("ACME LLC CORP"))) ≠
      normalizeNameStr (s2l ("ACME LLC CORP")) := by
  refine ⟨by decide, by decide, by decide⟩

/-- C4 (amended): normalize_name is idempotent exactly on the names whose normalized
    form is left unchanged by the suffix-stripping pass: if stripSuffixes fixes
    normalizeNameStr n, then re-normalizing changes nothing (upper-casing, trimming
    and whitespace collapsing always fix the normalized form); in general a second
    application can strip further suffixes exposed by the first pass. -/
theorem C4_amended (n : List Nat)
    (h : stripSuffixes (normalizeNameStr n) = normalizeNameStr n) :
    normalizeNameStr (normalizeNameStr n) = normalizeNameStr n := by
  have h0 : normalizeNameStr (normalizeNameStr n) =
      pyStrip (collapseWs (stripSuffixes (pyStrip (pyUpper (normalizeNameStr n))))) := rfl
  rw [h0, pyUpper_of_upperFixed (upperFixed_normName n),
    pyStrip_of_stripped (noLeadWs_normName n) (noTrailWs_normName n), h,
    collapseWs_of_collapsed (collapsed_normName n),
    pyStrip_of_stripped (noLeadWs_normName n) (noTrailWs_normName n)]

/-- C4 witness: a concrete instance of the amended theorem at "Acme Widgets LLC",
    whose normalized form "ACME WIDGETS" is fixed by the suffix pass. -/
theorem C4_witness :
    stripSuffixes (normalizeNameStr (s2l ("Acme Widgets LLC"))) =
      normalizeNameStr (s2l ("Acme Widgets LLC")) ∧
    normalizeNameStr (normalizeNameStr (s2l ("Acme Widgets LLC"))) =
      normalizeNameStr (s2l ("Acme Widgets LLC")) :=
  ⟨by decide, C4_amended (s2l ("Acme Widgets LLC")) (by decide)⟩

/-! ## Claim C8 -/

/-- C8: address normalization is idempotent — for every address string,
    normalize_addr applied twice equals normalize_addr applied once — and missing
    input yields the empty string (also idempotently); the analyzer.py column
    normalization (upper, strip, collapse) is idempotent as well. -/
theorem C8_idempotent :
    (∀ a : List Nat, normalizeAddrStr (normalizeAddrStr a) = normalizeAddrStr a) ∧
    cdNormalizeAddr none = [] ∧
    (∀ v, cdNormalizeAddr (some (cdNormalizeAddr v)) = cdNormalizeAddr v) ∧
    (∀ v, anAddrNorm (anAddrNorm v) = anAddrNorm v) := by
  refine ⟨normalizeAddrStr_idem, rfl, ?_, ?_⟩
  · intro v
    cases v with
    | none => decide
    | some s => exact normalizeAddrStr_idem s
  · intro v
    cases v with
    | none => rfl
    | some s => exact congrArg some (anAddrNormStr_idem s)

/-! ## Claim C7 -/

/-- C7: _parse_currency is total and never raises. Missing input yields 0.0;
    numeric input is cast unchanged; text is parsed after deleting every character
    that is not a digit, a dot or a minus sign; unparsable text yields exactly 0.0.
    Values are exact fractions (numerator, denominator): "$12,345.67" parses to
    1234567/100 = 12345.67 and "N/A" to 0.0; garbage, empty, multi-dot and
    multi-minus inputs all yield 0.0, and a parenthesized-free negative like
    "-$1,000" parses to -1000.0. -/
theorem C7_parse_currency_total :
    (∀ q : Int × Nat, parseCurrency (PyCell.num q) = q) ∧
    parseCurrency PyCell.blank = (0, 1) ∧
    parseCurrency (PyCell.txt (s2l ("$12,345.67"))) = (1234567, 100) ∧
    parseCurrency (PyCell.txt (s2l ("N/A"))) = (0, 1) ∧
    parseCurrency (PyCell.txt (s2l (""))) = (0, 1) ∧
    parseCurrency (PyCell.txt (s2l ("12.34.56"))) = (0, 1) ∧
    parseCurrency (PyCell.txt (s2l ("--5"))) = (0, 1) ∧
    parseCurrency (PyCell.txt (s2l ("-$1,000"))) = (-1000, 1) ∧
    parseCurrency (PyCell.txt (s2l ("garbage"))) = (0, 1) :=
  ⟨fun _ => rfl, rfl, by decide, by decide, by decide, by decide, by decide,
    by decide, by decide⟩

/-! ## Claim C6: greedy clustering facts -/

theorem greedyClusters_len (tn td : Nat) :
    ∀ (ns claimed : List (List Nat)), ∀ g ∈ greedyClusters tn td ns claimed,
      2 ≤ g.length := by
  intro ns
  induction ns with
  | nil => intro claimed g hg; simp [greedyClusters] at hg
  | cons n rest ih =>
    intro claimed g hg
    simp only [greedyClusters] at hg
    split at hg
    · exact ih claimed g hg
    · split at hg
      · exact ih claimed g hg
      · next habs =>
        rcases List.mem_cons.mp hg with rfl | hg'
        · have hpos := List.length_pos.mpr habs
          simp only [List.length_cons]
          omega
        · exact ih _ g hg'

theorem greedyClusters_flatten (tn td : Nat) :
    ∀ (ns claimed : List (List Nat)), ns.Nodup →
      (greedyClusters tn td ns claimed).flatten.Nodup ∧
      ∀ x ∈ (greedyClusters tn td ns claimed).flatten, x ∈ ns ∧ x ∉ claimed := by
  intro ns
  induction ns with
  | nil =>
    intro claimed _
    constructor
    · simp [greedyClusters]
    · intro x hx; simp [greedyClusters] at hx
  | cons n rest ih =>
    intro claimed hnd
    have hndr : rest.Nodup := (List.nodup_cons.mp hnd).2
    have hn_notin : n ∉ rest := (List.nodup_cons.mp hnd).1
    simp only [greedyClusters]
    split
    · obtain ⟨ih1, ih2⟩ := ih claimed hndr
      exact ⟨ih1, fun x hx => ⟨List.mem_cons_of_mem _ (ih2 x hx).1, (ih2 x hx).2⟩⟩
    · next hnc =>
      split
      · obtain ⟨ih1, ih2⟩ := ih claimed hndr
        exact ⟨ih1, fun x hx => ⟨List.mem_cons_of_mem _ (ih2 x hx).1, (ih2 x hx).2⟩⟩
      · rw [List.flatten_cons]
        obtain ⟨ih1, ih2⟩ := ih (claimed ++ n :: rest.filter
          (fun m => if m ∈ claimed then false else simGe tn td n m)) hndr
        have habs_sub : ∀ x ∈ rest.filter
            (fun m => if m ∈ claimed then false else simGe tn td n m), x ∈ rest :=
          fun x hx => List.mem_of_mem_filter hx
        have hclnodup : (n :: rest.filter
            (fun m => if m ∈ claimed then false else simGe tn td n m)).Nodup := by
          refine List.nodup_cons.mpr ⟨fun hmem => hn_notin (habs_sub n hmem), ?_⟩
          exact hndr.filter _
        constructor
        · refine List.nodup_append.mpr ⟨hclnodup, ih1, ?_⟩
          intro x hx1 hx2
          exact (ih2 x hx2).2 (List.mem_append_right _ hx1)
        · intro x hx
          rcases List.mem_append.mp hx with hx1 | hx2
          · rcases List.mem_cons.mp hx1 with rfl | hx1'
            · exact ⟨List.mem_cons_self _ _, hnc⟩
            · refine ⟨List.mem_cons_of_mem _ (habs_sub x hx1'), ?_⟩
              have hcond := List.of_mem_filter hx1'
              intro hmem
              rw [if_pos hmem] at hcond
              exact Bool.false_ne_true hcond
          · obtain ⟨hm, hnc2⟩ := ih2 x hx2
            exact ⟨List.mem_cons_of_mem _ hm,
              fun hcl => hnc2 (List.mem_append_left _ hcl)⟩

theorem greedyClusters_seed {tn td : Nat} {A : List Nat} {rest : List (List Nat)}
    {B C : List Nat} (hB : B ∈ rest) (hC : C ∈ rest)
    (hAB : simGe tn td A B = true) (hAC : simGe tn td A C = true) :
    ∃ cl ∈ greedyClusters tn td (A :: rest) [], A ∈ cl ∧ B ∈ cl ∧ C ∈ cl := by
  have hBin : B ∈ rest.filter
      (fun m => if m ∈ ([] : List (List Nat)) then false else simGe tn td A m) := by
    refine List.mem_filter.mpr ⟨hB, ?_⟩
    simp [hAB]
  have hCin : C ∈ rest.filter
      (fun m => if m ∈ ([] : List (List Nat)) then false else simGe tn td A m) := by
    refine List.mem_filter.mpr ⟨hC, ?_⟩
    simp [hAC]
  have hred : greedyClusters tn td (A :: rest) [] =
      (A :: rest.filter
        (fun m => if m ∈ ([] : List (List Nat)) then false else simGe tn td A m)) ::
      greedyClusters tn td rest ([] ++ A :: rest.filter
        (fun m => if m ∈ ([] : List (List Nat)) then false else simGe tn td A m)) := by
    simp only [greedyClusters]
    rw [if_neg (by simp), if_neg (List.ne_nil_of_mem hBin)]
  rw [hred]
  exact ⟨_, List.mem_cons_self _ _, List.mem_cons_self _ _,
    List.mem_cons_of_mem _ hBin, List.mem_cons_of_mem _ hCin⟩

theorem rescaleClusters_eq (cs : List NameCluster) :
    rescaleClusters cs = cs.map (fun c => { c with risk_score :=
      (c.cluster_size, (cs.map (fun d => d.cluster_size)).foldr max 0) }) := by
  unfold rescaleClusters
  split
  · next h => rw [h]; rfl
  · rfl

theorem sortDescNat_perm {α : Type} (key : α → Nat) (l : List α) :
    (sortDescNat key l).Perm l := List.perm_insertionSort _ l

theorem sortDescInt_perm {α : Type} (key : α → Int) (l : List α) :
    (sortDescInt key l).Perm l := List.perm_insertionSort _ l

theorem sortAscInt_perm {α : Type} (key : α → Int) (l : List α) :
    (sortAscInt key l).Perm l := List.perm_insertionSort _ l

theorem sortDescFrac_perm {α : Type} (key : α → Int × Nat) (l : List α) :
    (sortDescFrac key l).Perm l := List.perm_insertionSort _ l

/-- C6: single-dataset name clustering is greedy and seed-relative, not transitive
    closure: whenever the unique normalized names begin with a seed A and B, C occur
    later with sim(A,B) and sim(A,C) at or above the threshold while sim(B,C) is
    below it, analyze_name_similarity puts A, B and C into one cluster; moreover
    every reported cluster has at least two names, and no name appears in two
    different clusters. -/
theorem C6_greedy_clustering (t : LTable) (tn td : Nat) (A B C : List Nat)
    (rest : List (List Nat))
    (hflag : t.hasBusinessNameNormalized = true)
    (hns : laNames t = A :: rest)
    (hB : B ∈ rest) (hC : C ∈ rest) (hBC : B ≠ C)
    (hAB : simGe tn td A B = true) (hAC : simGe tn td A C = true)
    (hBCsim : simGe tn td B C = false) :
    (∃ cl ∈ analyzeNameSimilarity t tn td,
      A ∈ cl.names ∧ B ∈ cl.names ∧ C ∈ cl.names) ∧
    (∀ cl ∈ analyzeNameSimilarity t tn td, 2 ≤ cl.names.length) ∧
    (∀ cl1 ∈ analyzeNameSimilarity t tn td, ∀ cl2 ∈ analyzeNameSimilarity t tn td,
      cl1 ≠ cl2 → ∀ x ∈ cl1.names, x ∉ cl2.names) := by
  have hred : analyzeNameSimilarity t tn td = sortDescNat (fun c => c.cluster_size)
      (rescaleClusters ((greedyClusters tn td (laNames t) []).map (mkNameCluster t))) := by
    unfold analyzeNameSimilarity
    rw [hflag]
    rfl
  rw [hred, rescaleClusters_eq, List.map_map]
  have hperm := sortDescNat_perm (fun c : NameCluster => c.cluster_size)
    (((greedyClusters tn td (laNames t) []).map (fun g =>
      ((fun c => { c with risk_score := (c.cluster_size,
        ((((greedyClusters tn td (laNames t) []).map (mkNameCluster t)).map
          (fun d => d.cluster_size)).foldr max 0)) }) ∘ mkNameCluster t) g)))
  refine ⟨?_, ?_, ?_⟩
  · obtain ⟨cl0, hcl0, hA0, hB0, hC0⟩ :=
      @greedyClusters_seed tn td A rest B C hB hC hAB hAC
    rw [← hns] at hcl0
    refine ⟨_, (sortDescNat_perm _ _).mem_iff.mpr
      (List.mem_map.mpr ⟨cl0, hcl0, rfl⟩), hA0, hB0, hC0⟩
  · intro cl hcl
    have hcl2 := (sortDescNat_perm _ _).mem_iff.mp hcl
    rcases List.mem_map.mp hcl2 with ⟨g, hg, rfl⟩
    exact greedyClusters_len tn td (laNames t) [] g hg
  · have hnd : (laNames t).Nodup := pdUnique_nodup _
    have hPD : List.Pairwise List.Disjoint (greedyClusters tn td (laNames t) []) :=
      (List.nodup_flatten.mp (greedyClusters_flatten tn td (laNames t) [] hnd).1).2
    have hsym : Symmetric (fun c1 c2 : NameCluster => ∀ x ∈ c1.names, x ∉ c2.names) :=
      fun {c1 c2} h x hx2 hx1 => (h x hx1) hx2
    have hPD2 : List.Pairwise (fun c1 c2 : NameCluster =>
        ∀ x ∈ c1.names, x ∉ c2.names)
        ((greedyClusters tn td (laNames t) []).map (fun g =>
          ((fun c => { c with risk_score := (c.cluster_size,
            ((((greedyClusters tn td (laNames t) []).map (mkNameCluster t)).map
              (fun d => d.cluster_size)).foldr max 0)) }) ∘ mkNameCluster t) g)) := by
      rw [List.pairwise_map]
      exact hPD.imp (fun {g1 g2} hdis => hdis)
    have hout := ((sortDescNat_perm (fun c : NameCluster => c.cluster_size)
      _).pairwise_iff (fun {a b} h => hsym h)).mpr hPD2
    intro cl1 h1 cl2 h2 hne
    exact hout.forall hsym h1 h2 hne

/-- C6 witness: the three names ABCDE, ABCDX, XBCDE at threshold 4/5 (the second
    and third match the first at ratio 8/10 but each other only at 6/10) land in a
    single cluster, every cluster has at least two names, and no name is in two
    clusters. -/
theorem C6_witness :
    c6Table.hasBusinessNameNormalized = true ∧
    laNames c6Table = s2l ("ABCDE") :: [s2l ("ABCDX"), s2l ("XBCDE")] ∧
    ((∃ cl ∈ analyzeNameSimilarity c6Table 4 5,
      s2l ("ABCDE") ∈ cl.names ∧ s2l ("ABCDX") ∈ cl.names ∧
        s2l ("XBCDE") ∈ cl.names) ∧
     (∀ cl ∈ analyzeNameSimilarity c6Table 4 5, 2 ≤ cl.names.length) ∧
     (∀ cl1 ∈ analyzeNameSimilarity c6Table 4 5,
       ∀ cl2 ∈ analyzeNameSimilarity c6Table 4 5,
       cl1 ≠ cl2 → ∀ x ∈ cl1.names, x ∉ cl2.names)) :=
  ⟨by decide, by decide,
    C6_greedy_clustering c6Table 4 5 (s2l ("ABCDE")) (s2l ("ABCDX")) (s2l ("XBCDE"))
      [s2l ("ABCDX"), s2l ("XBCDE")] (by decide) (by decide) (by decide) (by decide)
      (by decide) (by decide) (by decide) (by decide)⟩

/-! ## Claim C1 -/

/-- Characterization of the success case of analyze_address_density: with the
    normalized address column present and every agg column present, the result is
    the flagged groups sorted by count descending, each scored by its count over
    the maximum flagged count. -/
theorem analyzeAddressDensity_ok (t : LTable) (threshold : Nat)
    (h1 : t.hasAddressNormalized = true) (h2 : densityMissingCols t = []) :
    analyzeAddressDensity t threshold = Except.ok
      ((sortDescNat (fun f => f.license_count)
        (((addrGroups t).map (fun g => mkDensityFinding g.1 g.2)).filter
          (fun f => threshold ≤ f.license_count))).map
        (fun f => { f with risk_score := (f.license_count,
          (((((addrGroups t).map (fun g => mkDensityFinding g.1 g.2)).filter
            (fun f => threshold ≤ f.license_count)).map
            (fun f => f.license_count)).foldr max 0)) })) := by
  unfold analyzeAddressDensity
  rw [h1, if_neg (by decide), if_neg (fun hn => hn h2)]

/-- C1 counterexample: a detector with non-empty output whose maximum risk_score is
    below 1. With one license and one tax record sharing one address, the
    cross-dataset overlap detector of analyze_address_clustering emits one finding
    scored min(1+1, 10)/10 = 2/10, because its score is min(1, metric/10), not
    metric over the maximum metric of the collection. -/
theorem C1_counterexample :
    (analyzeAddressClustering c1xLics c1xTaxes 2).cross_dataset_overlaps.map
      (fun f => f.risk_score) = [(2, 10)] ∧
    (analyzeAddressClustering c1xLics c1xTaxes 2).cross_dataset_overlaps ≠ [] ∧
    (∀ f ∈ (analyzeAddressClustering c1xLics c1xTaxes 2).cross_dataset_overlaps,
      f.risk_score.1 < f.risk_score.2) := by
  refine ⟨by decide, by decide, by decide⟩

/-- C1 (amended): the divide-by-maximum scoring holds for the LicenseAnalyzer
    detectors — every analyze_address_density finding is scored count over the
    maximum flagged count, so all scores lie in [0,1] and some finding attains
    score 1 whenever the output is non-empty — but the CrossDatasetAnalyzer
    address-clustering findings are scored min(1, metric/10) instead, which is
    bounded by 1 yet need not reach 1 on a non-empty output. -/
theorem C1_amended (t : LTable) (threshold : Nat) (out : List AddrDensityFinding)
    (h : analyzeAddressDensity t threshold = Except.ok out) (hne : out ≠ []) :
    (∀ f ∈ out, f.risk_score.1 ≤ f.risk_score.2) ∧
    (∃ f ∈ out, f.risk_score.1 = f.risk_score.2) ∧
    (∀ (lics : List CLicRow) (taxes : List TaxRow) (thr : Nat),
      ∀ f ∈ (analyzeAddressClustering lics taxes thr).cross_dataset_overlaps,
        f.risk_score.1 ≤ 10 ∧ f.risk_score.2 = 10) := by
  have hcross : ∀ (lics : List CLicRow) (taxes : List TaxRow) (thr : Nat),
      ∀ f ∈ (analyzeAddressClustering lics taxes thr).cross_dataset_overlaps,
        f.risk_score.1 ≤ 10 ∧ f.risk_score.2 = 10 := by
    intro lics taxes thr f hf
    have hf1 : f ∈ sortDescFrac (fun x => natFrac x.risk_score)
        (overlapFindingsFull lics taxes) :=
      List.take_subset 50 _ hf
    have hf2 : f ∈ overlapFindingsFull lics taxes :=
      (sortDescFrac_perm _ _).mem_iff.mp hf1
    unfold overlapFindingsFull at hf2
    rcases List.mem_flatMap.mp hf2 with ⟨addr, _, hmem⟩
    split at hmem
    · exact absurd hmem (List.not_mem_nil f)
    · obtain rfl := List.mem_singleton.mp hmem
      exact ⟨Nat.min_le_right _ _, rfl⟩
  cases hA : t.hasAddressNormalized with
  | false =>
    have hempty : analyzeAddressDensity t threshold = Except.ok [] := by
      unfold analyzeAddressDensity
      rw [if_pos (by rw [hA]; rfl)]
    rw [hempty] at h
    exact absurd (Except.ok.inj h).symm hne
  | true =>
    by_cases hM : densityMissingCols t = []
    · rw [analyzeAddressDensity_ok t threshold hA hM] at h
      have h' := Except.ok.inj h
      subst h'
      refine ⟨?_, ?_, hcross⟩
      · intro f hf
        rcases List.mem_map.mp hf with ⟨g, hg, rfl⟩
        have hg' := (sortDescNat_perm (fun f : AddrDensityFinding => f.license_count) _).mem_iff.mp hg
        exact le_foldr_max _ _ (List.mem_map.mpr ⟨g, hg', rfl⟩)
      · by_cases hfe : (((addrGroups t).map (fun g => mkDensityFinding g.1 g.2)).filter
            (fun f => threshold ≤ f.license_count)) = []
        · exact absurd (by rw [hfe]; rfl) hne
        · have hcne : ((((addrGroups t).map (fun g => mkDensityFinding g.1 g.2)).filter
              (fun f => threshold ≤ f.license_count)).map
              (fun f => f.license_count)) ≠ [] :=
            fun hc => hfe (List.map_eq_nil_iff.mp hc)
          rcases List.mem_map.mp (foldr_max_mem _ hcne) with ⟨g, hg, hgc⟩
          exact ⟨_, List.mem_map.mpr ⟨g,
            (sortDescNat_perm (fun f : AddrDensityFinding => f.license_count) _).mem_iff.mpr hg, rfl⟩, hgc⟩
    · have herr : analyzeAddressDensity t threshold =
          Except.error (densityMissingCols t) := by
        unfold analyzeAddressDensity
        rw [if_neg (by rw [hA]; decide), if_pos hM]
      rw [herr] at h
      exact Except.noConfusion h

/-- C1 witness: the amended theorem at the three-licenses-one-address table with
    threshold 3, whose single finding is scored 3/3. -/
theorem C1_witness :
    analyzeAddressDensity c1Table 3 = Except.ok c1Out ∧ c1Out ≠ [] ∧
    ((∀ f ∈ c1Out, f.risk_score.1 ≤ f.risk_score.2) ∧
     (∃ f ∈ c1Out, f.risk_score.1 = f.risk_score.2) ∧
     (∀ (lics : List CLicRow) (taxes : List TaxRow) (thr : Nat),
       ∀ f ∈ (analyzeAddressClustering lics taxes thr).cross_dataset_overlaps,
         f.risk_score.1 ≤ 10 ∧ f.risk_score.2 = 10)) :=
  ⟨rfl, by decide, C1_amended c1Table 3 c1Out rfl (by decide)⟩

/-! ## Claim C2 -/

/-- C2: on a table that has all required columns (license_id, business_name,
    address) but lacks the optional columns dba_name, license_type and issue_date,
    analyze_address_density raises KeyError (modelled as Except.error naming the
    absent agg-dictionary columns) instead of degrading, because its groupby agg
    dictionary names every optional column unconditionally; analyze_temporal_clustering
    on the same table degrades correctly to an empty result. -/
theorem C2_missing_column_raises :
    c2Table.hasLicenseId = true ∧ c2Table.hasBusinessName = true ∧
    c2Table.hasAddress = true ∧ c2Table.hasDbaName = false ∧
    c2Table.hasLicenseType = false ∧ c2Table.hasIssueDate = false ∧
    analyzeAddressDensity (laInit c2Table) 3 =
      Except.error ["dba_name", "license_type", "issue_date"] ∧
    analyzeTemporalClustering (laInit c2Table) 7 5 = Except.ok [] :=
  ⟨rfl, rfl, rfl, rfl, rfl, rfl, rfl, rfl⟩

/-! ## Claim C5 -/

set_option maxHeartbeats 2000000 in
/-- C5 counterexample: the 100-row cap of the owner/business matching is applied to
    the high-value subset after sorting by total_due descending, not in input
    order. With 101 high-value rows where the only owner similar to a license name
    has the smallest total_due and comes first in input order, the code produces no
    match (that row ranks 101st and is cut), while the input-order reading of the
    claim produces one. -/
theorem C5_counterexample :
    businessOwnerMatchesFull c5Taxes c5Lics = [] ∧
    businessOwnerMatchesInputOrder c5Taxes c5Lics ≠ [] ∧
    (c5Taxes.filter (taxDueGe 5000)).length = 101 := by
  refine ⟨by decide, by decide, by decide⟩

/-- C5 (amended): the linkage filters tax records by total_due at least 5000 and,
    independently, by years_delinquent at least 3 (the two summary counts are the
    untruncated lengths of these cuts), and cross-references the high-value subset
    sorted by total_due descending and capped at its first 100 rows — a ranking,
    not input order — against all license rows at ratio threshold 0.80 (names
    shorter than 3 characters skipped on both sides). -/
theorem C5_amended (taxes : List TaxRow) (lics : List CLicRow)
    (cons : List ContractRow) :
    (∀ mt ∈ businessOwnerMatchesFull taxes lics,
      ∃ tr ∈ (highValueSorted taxes).take 100, ∃ lr ∈ lics,
        taxDueGe 5000 tr = true ∧
        3 ≤ tr.ownerNorm.length ∧ 3 ≤ lr.bnNorm.length ∧
        simGe 4 5 tr.ownerNorm lr.bnNorm = true ∧
        mt = mkTaxBizMatch tr lr) ∧
    (analyzeTaxDelinquentOverlaps lics cons taxes).high_value_count =
      (taxes.filter (taxDueGe 5000)).length ∧
    (analyzeTaxDelinquentOverlaps lics cons taxes).long_term_count =
      (taxes.filter (taxYearsGe 3)).length := by
  refine ⟨?_, ?_, ?_⟩
  · intro mt hmt
    unfold businessOwnerMatchesFull at hmt
    rcases List.mem_flatMap.mp hmt with ⟨tr, htr, hmem⟩
    refine ⟨tr, htr, ?_⟩
    split at hmem
    · exact absurd hmem (List.not_mem_nil mt)
    · next hc1 =>
      rcases List.mem_flatMap.mp hmem with ⟨lr, hlr, hmem2⟩
      refine ⟨lr, hlr, ?_⟩
      split at hmem2
      · exact absurd hmem2 (List.not_mem_nil mt)
      · next hc2 =>
        split at hmem2
        · next hsim =>
          obtain rfl := List.mem_singleton.mp hmem2
          have hdue : taxDueGe 5000 tr = true := by
            have hin : tr ∈ highValueSorted taxes := List.take_subset 100 _ htr
            have hin2 : tr ∈ taxes.filter (taxDueGe 5000) :=
              (sortDescInt_perm _ _).mem_iff.mp hin
            exact (List.mem_filter.mp hin2).2
          exact ⟨hdue,
            Nat.le_of_not_lt (fun hlt => hc1 (Or.inr hlt)),
            Nat.le_of_not_lt (fun hlt => hc2 (Or.inr hlt)), hsim, rfl⟩
        · exact absurd hmem2 (List.not_mem_nil mt)
  · exact (sortDescInt_perm _ _).length_eq
  · exact (sortDescInt_perm _ _).length_eq

/-! ## Claim C9 -/

/-- C9: every detector/matcher is read-only on analyzer state. As state
    transformers, the analyze methods of both analyzers return the stored frames
    unchanged, and re-running any method on the post-call state returns a result
    equal to the first. -/
theorem C9_state_readonly :
    (∀ st : CDState,
      (cdAnalyzeContractTiming st).1 = st ∧
      (cdAnalyzeTaxOverlaps st).1 = st ∧
      (cdAnalyzeContractTiming (cdAnalyzeContractTiming st).1).2 =
        (cdAnalyzeContractTiming st).2 ∧
      (cdAnalyzeTaxOverlaps (cdAnalyzeTaxOverlaps st).1).2 =
        (cdAnalyzeTaxOverlaps st).2) ∧
    (∀ (st : CDState) (thr : Nat),
      (cdAnalyzeAddressClustering st thr).1 = st ∧
      (cdAnalyzeAddressClustering (cdAnalyzeAddressClustering st thr).1 thr).2 =
        (cdAnalyzeAddressClustering st thr).2) ∧
    (∀ (st : CDState) (tn td : Nat),
      (cdAnalyzeNameSimilarity st tn td).1 = st ∧
      (cdAnalyzeNameSimilarity (cdAnalyzeNameSimilarity st tn td).1 tn td).2 =
        (cdAnalyzeNameSimilarity st tn td).2) ∧
    (∀ (st : LTable) (thr : Nat),
      (laAnalyzeAddressDensity st thr).1 = st ∧
      (laAnalyzeAddressDensity (laAnalyzeAddressDensity st thr).1 thr).2 =
        (laAnalyzeAddressDensity st thr).2) ∧
    (∀ (st : LTable) (w thr : Nat),
      (laAnalyzeTemporal st w thr).1 = st ∧
      (laAnalyzeTemporal (laAnalyzeTemporal st w thr).1 w thr).2 =
        (laAnalyzeTemporal st w thr).2) ∧
    (∀ (st : LTable) (tn td : Nat),
      (laAnalyzeNameSim st tn td).1 = st ∧
      (laAnalyzeNameSim (laAnalyzeNameSim st tn td).1 tn td).2 =
        (laAnalyzeNameSim st tn td).2) :=
  ⟨fun _ => ⟨rfl, rfl, rfl, rfl⟩, fun _ _ => ⟨rfl, rfl⟩, fun _ _ _ => ⟨rfl, rfl⟩,
   fun _ _ => ⟨rfl, rfl⟩, fun _ _ _ => ⟨rfl, rfl⟩, fun _ _ _ => ⟨rfl, rfl⟩⟩

/-! ## Claim C10 -/

theorem length_flatMap_le_of_le_one {α β : Type} (f : α → List β) (l : List α)
    (h : ∀ a ∈ l, (f a).length ≤ 1) : (l.flatMap f).length ≤ l.length := by
  induction l with
  | nil => simp
  | cons x xs ih =>
    rw [List.flatMap_cons, List.length_append, List.length_cons]
    have hx := h x (List.mem_cons_self x xs)
    have hxs := ih (fun a ha => h a (List.mem_cons_of_mem x ha))
    omega

/-- C10 counterexample: total_shared_addresses is not the untruncated count of
    cross_dataset_overlaps findings. A license row and a tax row both lacking an
    address share the empty normalized address, counted by total_shared_addresses
    but skipped by the overlap findings, so the summary says 1 shared address while
    the findings list is empty even before truncation. -/
theorem C10_counterexample :
    (analyzeAddressClustering c10Lics c10Taxes 2).total_shared_addresses = 1 ∧
    overlapFindingsFull c10Lics c10Taxes = [] ∧
    (analyzeAddressClustering c10Lics c10Taxes 2).cross_dataset_overlaps = [] := by
  refine ⟨by decide, by decide, by decide⟩

/-- C10 (amended): the cross-dataset result lists are truncated to fixed caps (100
    for both name-similarity match lists, 50 for both address-clustering lists)
    while license_contract_matches_found and license_tax_matches_found equal the
    untruncated match counts; total_shared_addresses, however, is the count of
    shared normalized addresses — including the empty string standing for a missing
    address — which bounds the untruncated overlap-findings count from above rather
    than equalling it, since findings skip the empty address. -/
theorem C10_amended (lics : List CLicRow) (cons : List ContractRow)
    (taxes : List TaxRow) (tn td thr : Nat) :
    (analyzeNameSimilarityCross lics cons taxes tn td).license_contract_matches.length ≤ 100 ∧
    (analyzeNameSimilarityCross lics cons taxes tn td).license_tax_owner_matches.length ≤ 100 ∧
    (analyzeNameSimilarityCross lics cons taxes tn td).license_contract_matches_found =
      (lcMatchesFull lics cons tn td).length ∧
    (analyzeNameSimilarityCross lics cons taxes tn td).license_tax_matches_found =
      (ltMatchesFull lics taxes tn td).length ∧
    (analyzeAddressClustering lics taxes thr).cross_dataset_overlaps.length ≤ 50 ∧
    (analyzeAddressClustering lics taxes thr).address_density.length ≤ 50 ∧
    (analyzeAddressClustering lics taxes thr).total_shared_addresses =
      (sharedAddrList lics taxes).length ∧
    (overlapFindingsFull lics taxes).length ≤ (sharedAddrList lics taxes).length := by
  refine ⟨List.length_take_le _ _, List.length_take_le _ _, rfl, rfl,
    List.length_take_le _ _, List.length_take_le _ _, rfl, ?_⟩
  unfold overlapFindingsFull
  exact length_flatMap_le_of_le_one _ _ (fun a _ => by split <;> simp)
